import Mathlib

set_option maxRecDepth 10000
set_option synthInstance.maxHeartbeats 1000000

/-!
Verification of the proto-semantic-reviewer core: the agentic tool-calling
review loop (`src/agent.py`: `review_proto`, `review_proto_structured`,
`_execute_tool`, `_validate_input`) and the structured-response extractor
(`_parse_structured_response`).

The embedding works over `List Char` for the extractor (Python `str` is a
sequence of unicode scalar values; Lean `Char` is a unicode scalar value) and
over `String` for the conversation driver.  Python's `json.loads`/`json.dumps`
and the concrete regular expressions of `_parse_structured_response` are
modelled by executable Lean functions, documented at each definition.
-/

/-! ## JSON values

Model of the Python values produced by `json.loads`: `None`, `bool`, numbers,
`str`, `list`, `dict`.  Numbers are modelled by their source lexeme (the exact
characters matched by the JSON number grammar); CPython parses a lexeme to an
`int`/`float` and re-serialises it canonically, but two equal lexemes always
denote equal Python values, so every equality proved here about `num` values
corresponds to a true equality of the Python values.  `dict` is modelled as an
insertion-ordered association list, duplicate keys resolved exactly as
`dict(pairs)` does (first position kept, last value wins). -/
inductive JsonVal where
  | null
  | bool (b : Bool)
  | num (lexeme : List Char)
  | str (s : List Char)
  | arr (xs : List JsonVal)
  | obj (members : List (List Char × JsonVal))

mutual
/-- Boolean structural equality on `JsonVal` (Python `==` on loaded values). -/
def beqV : JsonVal → JsonVal → Bool
  | .null, .null => true
  | .bool a, .bool b => a = b
  | .num a, .num b => a = b
  | .str a, .str b => a = b
  | .arr a, .arr b => beqArr a b
  | .obj a, .obj b => beqObj a b
  | _, _ => false

def beqArr : List JsonVal → List JsonVal → Bool
  | [], [] => true
  | a :: as, b :: bs => beqV a b && beqArr as bs
  | _, _ => false

def beqObj : List (List Char × JsonVal) → List (List Char × JsonVal) → Bool
  | [], [] => true
  | (k, v) :: as, (k', v') :: bs => decide (k = k') && beqV v v' && beqObj as bs
  | _, _ => false
end

instance : BEq JsonVal := ⟨beqV⟩

/-- Membership test on the keys of a modelled `dict` (`k in d` for a Python dict). -/
def objHasKey (ms : List (List Char × JsonVal)) (k : List Char) : Bool :=
  ms.any (fun kv => decide (kv.1 = k))

/-- Key update on a modelled `dict` (`d[k] = v`): replaces the value in place if
the key exists (keeping its position, as a Python dict does), else appends. -/
def objInsert : List (List Char × JsonVal) → List Char → JsonVal → List (List Char × JsonVal)
  | [], k, v => [(k, v)]
  | (k', v') :: ms, k, v => if k' = k then (k', v) :: ms else (k', v') :: objInsert ms k v

/-- Key lookup on a modelled `dict` (`d.get(k)`). -/
def objGet : List (List Char × JsonVal) → List Char → Option JsonVal
  | [], _ => none
  | (k', v') :: ms, k => if k' = k then some v' else objGet ms k

/-- Projection used in the statements below: the string value stored at key `k`
of a result object, when it is a `dict` holding a string there. -/
def getStrField (v : JsonVal) (k : List Char) : Option (List Char) :=
  match v with
  | .obj ms =>
    match objGet ms k with
    | some (.str s) => some s
    | _ => none
  | _ => none

/-! ## Character classes and basic scanning helpers -/

/-- Whitespace for Python's `str.strip()` and for `\s` in an `re` pattern over
ASCII text: space, tab, newline, carriage return, vertical tab, form feed.
(Both also accept further unicode whitespace; no input in this development
contains any.) -/
def isPySpace (c : Char) : Bool :=
  c = ' ' || c = '\t' || c = '\n' || c = '\r' || c = '\x0b' || c = '\x0c'

/-- Whitespace skipped between JSON tokens by `json.loads` (` \t\n\r`). -/
def isJsonWs (c : Char) : Bool :=
  c = ' ' || c = '\t' || c = '\n' || c = '\r'

/-- Word characters for `\w` in an `re` pattern over ASCII text. -/
def isWordChar (c : Char) : Bool :=
  c.isAlphanum || c = '_'

/-- Python `str.strip()` on a character list. -/
def pyStrip (s : List Char) : List Char :=
  ((s.dropWhile isPySpace).reverse.dropWhile isPySpace).reverse

/-- Whether `pat` is an initial segment of `s`. -/
def leadsWith : List Char → List Char → Bool
  | [], _ => true
  | _ :: _, [] => false
  | p :: ps, c :: cs => p = c && leadsWith ps cs

/-- Whether `pat` occurs as a contiguous substring of `s`. -/
def hasSub (pat : List Char) : List Char → Bool
  | [] => leadsWith pat []
  | c :: r => leadsWith pat (c :: r) || hasSub pat r

/-- Split `s` at the first occurrence of `pat`: returns the part before the
occurrence and the part after it (`s = pre ++ pat ++ post`), or `none` when
`pat` does not occur. -/
def splitFirst (pat : List Char) : List Char → Option (List Char × List Char)
  | [] => if leadsWith pat [] then some ([], []) else none
  | c :: r =>
    if leadsWith pat (c :: r) then some ([], (c :: r).drop pat.length)
    else
      match splitFirst pat r with
      | some (pre, post) => some (c :: pre, post)
      | none => none

/-! ## The four extraction strategies of `_parse_structured_response`

Each strategy embeds one concrete `re.search` call of the source (or, for
strategy 4, its explicit brace-matching loop).  The regex search semantics is
compiled by hand: leftmost match start, greedy `\s*`/`\w*` runs (safe here
because the following literal is never a whitespace/word character), and
non-greedy `.*?` resolved to the shortest extension at which the remainder of
the pattern matches. -/

/-- Strategy 1, `re.search(r'```json\s*\n?(.*?)\n?```', full_text, re.DOTALL)`
followed by `.group(1).strip()`.  After the leftmost ` ```json `, the greedy
`\s*` eats the maximal whitespace run; the non-greedy `(.*?)\n?` then ends at
the first following ` ``` `, surrendering one final newline to `\n?`.  When no
` ``` ` follows, no later start can match either (any later ` ```json ` would
itself contain a following ` ``` `), so the search fails. -/
def strat1 (t : List Char) : Option (List Char) :=
  match splitFirst "```json".data t with
  | none => none
  | some (_, rest) =>
    let body := rest.dropWhile isPySpace
    match splitFirst "```".data body with
    | none => none
    | some (cap, _) =>
      let cap := if cap.getLast? = some '\n' then cap.dropLast else cap
      some (pyStrip cap)

/-- Scan used by strategy 2: find the earliest closing `\x7d` after which
`\s*\n?` followed by ` ``` ` matches (the non-greedy `.*?` of the group);
returns the characters strictly between the opening brace and that closer. -/
def strat2CloseScan : List Char → List Char → Option (List Char)
  | _, [] => none
  | acc, c :: r =>
    if c = '\x7d' then
      if leadsWith "```".data (r.dropWhile isPySpace) then some acc.reverse
      else strat2CloseScan (c :: acc) r
    else strat2CloseScan (c :: acc) r

/-- Strategy 2, `re.search(r'```\w*\s*\n?(\{.*?\})\s*\n?```', full_text,
re.DOTALL)` followed by `.group(1).strip()`: at each ` ``` ` in turn, skip the
maximal `\w*` then `\s*` run, require an opening brace, and close the group at
the earliest brace whose tail matches `\s*\n?````; on failure the search
resumes one character further right. -/
def strat2 : List Char → Option (List Char)
  | [] => none
  | c :: r =>
    if leadsWith "```".data (c :: r) then
      let after := (((c :: r).drop 3).dropWhile isWordChar).dropWhile isPySpace
      match after with
      | '\x7b' :: rest =>
        (match strat2CloseScan [] rest with
         | some inner => some (pyStrip ('\x7b' :: (inner ++ ['\x7d'])))
         | none => strat2 r)
      | _ => strat2 r
    else strat2 r

/-- Both braces excluded, `[^{}]` of the strategy-3 pattern. -/
def notBrace (c : Char) : Bool :=
  c != '\x7b' && c != '\x7d'

/-- Scan to the first position where `lit` matches, requiring every skipped
character to satisfy `ok`; returns (consumed characters including `lit`, rest).
Used for the `[^{}]*"issues"`-style fragments of the strategy-3 pattern. -/
def scanToLit (lit : List Char) (ok : Char → Bool) : List Char → Option (List Char × List Char)
  | [] => none
  | c :: r =>
    if leadsWith lit (c :: r) then some (lit, (c :: r).drop lit.length)
    else if ok c then
      match scanToLit lit ok r with
      | some (pre, post) => some (c :: pre, post)
      | none => none
    else none

/-- Maximal whitespace run and the rest (`\s*`). -/
def spanWs (s : List Char) : List Char × List Char :=
  (s.takeWhile isPySpace, s.dropWhile isPySpace)

/-- Strategy 3 match attempt at one opening brace (the text after the brace):
embeds `\{[^{}]*"issues"\s*:\s*\[.*?\][^{}]*"summary"\s*:\s*"[^"]*"[^{}]*\}`
from the brace on.  Returns the matched characters after the brace, through the
final `\x7d`.  Each `[^{}]*L` fragment is resolved to the first viable
occurrence of the literal `L` (the source pattern's greedy run with
backtracking resolves to the last viable occurrence; on every input evaluated
in this development the viable occurrence is unique, so the two coincide), and
`.*?\]` to the first `]`. -/
def strat3At (r0 : List Char) : Option (List Char) := do
  let (p1, r1) ← scanToLit "\"issues\"".data notBrace r0
  let (w1, r2) := spanWs r1
  let r3 ← match r2 with | ':' :: r3 => some r3 | _ => none
  let (w2, r4) := spanWs r3
  let r5 ← match r4 with | '[' :: r5 => some r5 | _ => none
  let (p2, r6) ← scanToLit "]".data (fun _ => true) r5
  let (p3, r7) ← scanToLit "\"summary\"".data notBrace r6
  let (w3, r8) := spanWs r7
  let r9 ← match r8 with | ':' :: r9 => some r9 | _ => none
  let (w4, r10) := spanWs r9
  let r11 ← match r10 with | '"' :: r11 => some r11 | _ => none
  let q := r11.takeWhile (fun c => c != '"')
  let r12 := r11.drop q.length
  let r13 ← match r12 with | '"' :: r13 => some r13 | _ => none
  let g5 := r13.takeWhile notBrace
  let r14 := r13.drop g5.length
  match r14 with
  | '\x7d' :: _ =>
    some (p1 ++ w1 ++ ':' :: w2 ++ '[' :: p2 ++ p3 ++ w3 ++ ':' :: w4 ++
      '"' :: q ++ '"' :: g5 ++ ['\x7d'])
  | _ => none

/-- Strategy 3, `re.search` of the pattern documented at `strat3At` with
`re.DOTALL`, taking `.group(0)` (no strip): tries each opening brace from the
left; a match must start with `\{`. -/
def strat3 : List Char → Option (List Char)
  | [] => none
  | c :: r =>
    if c = '\x7b' then
      match strat3At r with
      | some consumed => some ('\x7b' :: consumed)
      | none => strat3 r
    else strat3 r

/-- Strategy 4's scan, a direct translation of the source's character loop:
walks from the first brace tracking nesting `depth`, an `in_string` flag
toggled by unescaped quotes, and an `escape_next` flag set by a backslash
inside a string; answers the length of the prefix ending at the brace that
returns the depth to zero. -/
def strat4Scan : List Char → Nat → Bool → Bool → Nat → Option Nat
  | [], _, _, _, _ => none
  | c :: rest, depth, inStr, esc, count =>
    if esc then strat4Scan rest depth inStr false (count + 1)
    else if c = '\\' && inStr then strat4Scan rest depth inStr true (count + 1)
    else if c = '"' then strat4Scan rest depth (!inStr) false (count + 1)
    else if !inStr && c = '\x7b' then strat4Scan rest (depth + 1) inStr false (count + 1)
    else if !inStr && c = '\x7d' then
      (if depth = 1 then some (count + 1)
       else strat4Scan rest (depth - 1) inStr false (count + 1))
    else strat4Scan rest depth inStr false (count + 1)

/-- Strategy 4: from the first `\x7b` of the text (none: no candidate), take the
substring through the matching closing brace found by `strat4Scan`. -/
def strat4 (t : List Char) : Option (List Char) :=
  let pre := t.takeWhile (fun c => c != '\x7b')
  let suf := t.drop pre.length
  match suf with
  | [] => none
  | _ :: _ =>
    match strat4Scan suf 0 false false 0 with
    | some n => some (suf.take n)
    | none => none

/-- Ordered fallback chain of `_parse_structured_response`: each later strategy
is attempted only when every earlier one produced no candidate substring. -/
def extractCandidate (t : List Char) : Option (List Char) :=
  match strat1 t with
  | some s => some s
  | none =>
    match strat2 t with
    | some s => some s
    | none =>
      match strat3 t with
      | some s => some s
      | none => strat4 t

/-! ## Model of `json.loads` and `json.dumps`

`json.loads` with default arguments: strict strings (unescaped control
characters rejected), the standard escape set with `\uXXXX` and surrogate-pair
recombination, numbers by the regex `(-?(?:0|[1-9]\d*))(\.\d+)?([eE][-+]?\d+)?`
(maximal munch) with the `NaN`/`Infinity`/`-Infinity` constants accepted after
the regex fails (as the scanner does by default), objects collapsed by
`dict(pairs)`.  One representational limit of the embedding, not reachable
from any input considered here: lone-surrogate `\uXXXX` escapes (which
CPython accepts into a `str`) have no `Char` counterpart and are rejected. -/

/-- Value of one hex digit. -/
def hexVal (c : Char) : Option Nat :=
  if '0' ≤ c && c ≤ '9' then some (c.toNat - 48)
  else if 'a' ≤ c && c ≤ 'f' then some (c.toNat - 87)
  else if 'A' ≤ c && c ≤ 'F' then some (c.toNat - 55)
  else none

/-- Value of a four-hex-digit escape payload. -/
def hex4Val (a b c d : Char) : Option Nat := do
  let va ← hexVal a
  let vb ← hexVal b
  let vc ← hexVal c
  let vd ← hexVal d
  some (((va * 16 + vb) * 16 + vc) * 16 + vd)

/-- Prepend a character to the string part of a string-parse result. -/
def consCh (c : Char) : Option (List Char × List Char) → Option (List Char × List Char)
  | none => none
  | some (s, r) => some (c :: s, r)

/-- Decoding of a `\uXXXX` escape payload (the input starts at the first hex
digit): four hex digits; a high surrogate recombines with an immediately
following low-surrogate escape.  A lone surrogate is rejected (CPython accepts
it into a `str`; such a character has no Lean `Char` counterpart, and no input
considered here contains one). -/
def parseUEscape : List Char → Option (Char × List Char)
  | a :: b :: c :: d :: r =>
    (match hex4Val a b c d with
     | none => none
     | some n =>
       if 55296 ≤ n ∧ n ≤ 56319 then
         match r with
         | '\\' :: 'u' :: a2 :: b2 :: c2 :: d2 :: r2 =>
           (match hex4Val a2 b2 c2 d2 with
            | none => none
            | some m =>
              if 56320 ≤ m ∧ m ≤ 57343 then
                some (Char.ofNat (65536 + (n - 55296) * 1024 + (m - 56320)), r2)
              else none)
         | _ => none
       else if 56320 ≤ n ∧ n ≤ 57343 then none
       else some (Char.ofNat n, r))
  | _ => none

/-- Decoding of one backslash escape (the input starts after the backslash). -/
def parseEscape : List Char → Option (Char × List Char)
  | [] => none
  | e :: r =>
    if e = '"' then some ('"', r)
    else if e = '\\' then some ('\\', r)
    else if e = '/' then some ('/', r)
    else if e = 'b' then some ('\x08', r)
    else if e = 'f' then some ('\x0c', r)
    else if e = 'n' then some ('\n', r)
    else if e = 'r' then some ('\r', r)
    else if e = 't' then some ('\t', r)
    else if e = 'u' then parseUEscape r
    else none

/-- Body of a JSON string, after its opening quote: returns the decoded
characters and the input after the closing quote.  Strict mode: an unescaped
control character is rejected.  The fuel argument is an artifact of the
embedding; every recursive call consumes at least one character, so fuel
`length + 1` (as passed by the value parser) never runs out. -/
def parseStringBody : Nat → List Char → Option (List Char × List Char)
  | 0, _ => none
  | _ + 1, [] => none
  | fuel + 1, c :: rest =>
    if c = '"' then some ([], rest)
    else if c = '\\' then
      match parseEscape rest with
      | some (d, r) => consCh d (parseStringBody fuel r)
      | none => none
    else if c.toNat < 32 then none
    else consCh c (parseStringBody fuel rest)

/-- Optional fraction part of a number (`(\.\d+)?`): consumed lexeme and rest;
a dot not followed by a digit is not consumed. -/
def numFrac (s : List Char) : List Char × List Char :=
  match s with
  | [] => ([], [])
  | c :: r =>
    if c = '.' then
      let ds := r.takeWhile Char.isDigit
      if ds = [] then ([], c :: r) else ('.' :: ds, r.drop ds.length)
    else ([], c :: r)

/-- Optional exponent part of a number (`([eE][-+]?\d+)?`). -/
def numExp (s : List Char) : List Char × List Char :=
  match s with
  | [] => ([], [])
  | e :: rest =>
    if e = 'e' ∨ e = 'E' then
      let sgr2 : List Char × List Char :=
        match rest with
        | [] => ([], rest)
        | c2 :: r2 => if c2 = '+' then (['+'], r2) else if c2 = '-' then (['-'], r2) else ([], rest)
      let ds := sgr2.2.takeWhile Char.isDigit
      if ds = [] then ([], e :: rest) else (e :: sgr2.1 ++ ds, sgr2.2.drop ds.length)
    else ([], e :: rest)

/-- Unsigned part of the number lexer (after an optional sign, kept in
`sign`): integer part `0|[1-9]\d*`, then fraction, then exponent. -/
def lexNumMain (sign : List Char) : List Char → Option (List Char × List Char)
  | [] => none
  | c :: r =>
    if c = '0' then
      let fr1 := numFrac r
      let er2 := numExp fr1.2
      some (sign ++ '0' :: (fr1.1 ++ er2.1), er2.2)
    else if c.isDigit then
      let ds := r.takeWhile Char.isDigit
      let fr1 := numFrac (r.drop ds.length)
      let er2 := numExp fr1.2
      some (sign ++ c :: ds ++ fr1.1 ++ er2.1, er2.2)
    else none

/-- JSON number lexeme at the head of the input, by the scanner's regex
`(-?(?:0|[1-9]\d*))(\.\d+)?([eE][-+]?\d+)?`. -/
def lexNumber : List Char → Option (List Char × List Char)
  | [] => none
  | c :: r => if c = '-' then lexNumMain ['-'] r else lexNumMain [] (c :: r)

/-- Parser mode: a full value, or the tail of a partially-parsed array/object
(the source decoder's element/member loops). -/
inductive PMode where
  | value
  | arrTail (acc : List JsonVal)
  | objTail (acc : List (List Char × JsonVal))

/-- Recursive-descent JSON parser, fuelled for structural termination.  In
`value` mode: skip whitespace, dispatch on the first character exactly as the
CPython scanner does, trying the number regex before the `NaN`/`Infinity`/
`-Infinity` constants (accepted by default and kept as lexemes, matching the
decoder's `_CONSTANTS` and `json.dumps`'s `allow_nan=True` rendering).
`arrTail`/`objTail` carry the elements/members parsed so far and consume
`, element`/`, "key": value` groups until `]`/`\x7d`. -/
def parseStep : Nat → PMode → List Char → Option (JsonVal × List Char)
  | 0, _, _ => none
  | fuel + 1, .value, s =>
    (match s.dropWhile isJsonWs with
     | [] => none
     | c :: r =>
       if c = '\x7b' then
         (let r1 := r.dropWhile isJsonWs
          if r1.head? = some '\x7d' then some (.obj [], r1.tail)
          else parseStep fuel (.objTail []) r1)
       else if c = '[' then
         (let r1 := r.dropWhile isJsonWs
          if r1.head? = some ']' then some (.arr [], r1.tail)
          else parseStep fuel (.arrTail []) r1)
       else if c = '"' then
         (match parseStringBody (r.length + 1) r with
          | some (cs, rest) => some (.str cs, rest)
          | none => none)
       else if leadsWith "null".data (c :: r) then some (.null, r.drop 3)
       else if leadsWith "true".data (c :: r) then some (.bool true, r.drop 3)
       else if leadsWith "false".data (c :: r) then some (.bool false, r.drop 4)
       else
         match lexNumber (c :: r) with
         | some (lex, rest) => some (.num lex, rest)
         | none =>
           if leadsWith "NaN".data (c :: r) then some (.num "NaN".data, r.drop 2)
           else if leadsWith "Infinity".data (c :: r) then some (.num "Infinity".data, r.drop 7)
           else if leadsWith "-Infinity".data (c :: r) then some (.num "-Infinity".data, r.drop 8)
           else none)
  | fuel + 1, .arrTail acc, s =>
    (match parseStep fuel .value s with
     | none => none
     | some (v, r) =>
       let r1 := r.dropWhile isJsonWs
       if r1.head? = some ',' then parseStep fuel (.arrTail (acc ++ [v])) r1.tail
       else if r1.head? = some ']' then some (.arr (acc ++ [v]), r1.tail)
       else none)
  | fuel + 1, .objTail acc, s =>
    (match s.dropWhile isJsonWs with
     | [] => none
     | c :: r =>
       if c = '"' then
         (match parseStringBody (r.length + 1) r with
          | none => none
          | some (k, r1) =>
            let r2 := r1.dropWhile isJsonWs
            if r2.head? = some ':' then
              (match parseStep fuel .value r2.tail with
               | none => none
               | some (v, r4) =>
                 let r5 := r4.dropWhile isJsonWs
                 if r5.head? = some ',' then parseStep fuel (.objTail (objInsert acc k v)) r5.tail
                 else if r5.head? = some '\x7d' then some (.obj (objInsert acc k v), r5.tail)
                 else none)
            else none)
       else none)

/-- Model of `json.loads`: parse one value, then require only whitespace after
it ("Extra data" otherwise).  The fuel `2 * length + 2` dominates the number of
recursive calls (every two consecutive calls consume at least one character). -/
def jsonLoads (s : List Char) : Option JsonVal :=
  match parseStep (2 * s.length + 2) .value s with
  | some (v, rest) => if rest.dropWhile isJsonWs = [] then some v else none
  | none => none

/-- Hexadecimal digit character (lowercase, as CPython's encoder emits). -/
def hexDigit (n : Nat) : Char :=
  if n < 10 then Char.ofNat (48 + n) else Char.ofNat (87 + n)

/-- Four-digit hex rendering of `n < 0x10000`. -/
def hex4 (n : Nat) : List Char :=
  [hexDigit (n / 4096 % 16), hexDigit (n / 256 % 16), hexDigit (n / 16 % 16), hexDigit (n % 16)]

/-- Escape of one character in `json.dumps` output with the default
`ensure_ascii=True`: `"` and `\` and the short escapes, printable ASCII
verbatim, everything else as `\uXXXX` (a surrogate pair beyond the BMP). -/
def escapeChar (c : Char) : List Char :=
  if c = '"' then ['\\', '"']
  else if c = '\\' then ['\\', '\\']
  else if c = '\n' then ['\\', 'n']
  else if c = '\r' then ['\\', 'r']
  else if c = '\t' then ['\\', 't']
  else if c = '\x08' then ['\\', 'b']
  else if c = '\x0c' then ['\\', 'f']
  else if 0x20 ≤ c.toNat && c.toNat ≤ 0x7e then [c]
  else if c.toNat < 0x10000 then '\\' :: 'u' :: hex4 c.toNat
  else
    '\\' :: 'u' :: hex4 (0xD800 + (c.toNat - 0x10000) / 0x400) ++
      '\\' :: 'u' :: hex4 (0xDC00 + (c.toNat - 0x10000) % 0x400)

/-- String-content encoding of `json.dumps`. -/
def escapeStr : List Char → List Char
  | [] => []
  | c :: r => escapeChar c ++ escapeStr r

mutual
/-- Model of `json.dumps` with default separators `", "` and `": "` (numbers
rendered by their lexeme, see `JsonVal.num`). -/
def dumpsV : JsonVal → List Char
  | .null => "null".data
  | .bool true => "true".data
  | .bool false => "false".data
  | .num lex => lex
  | .str s => '"' :: escapeStr s ++ ['"']
  | .arr [] => "[]".data
  | .arr (x :: xs) => '[' :: (dumpsV x ++ dumpsElems xs) ++ [']']
  | .obj [] => ['\x7b', '\x7d']
  | .obj ((k, v) :: ms) =>
    '\x7b' :: ('"' :: escapeStr k ++ '"' :: ':' :: ' ' :: dumpsV v ++ dumpsMembers ms) ++ ['\x7d']

/-- Rendering of the remaining elements of a non-empty array, each preceded by
the `", "` separator. -/
def dumpsElems : List JsonVal → List Char
  | [] => []
  | x :: xs => ',' :: ' ' :: dumpsV x ++ dumpsElems xs

/-- Rendering of the remaining members of a non-empty object. -/
def dumpsMembers : List (List Char × JsonVal) → List Char
  | [] => []
  | (k, v) :: ms => ',' :: ' ' :: '"' :: escapeStr k ++ '"' :: ':' :: ' ' :: dumpsV v ++ dumpsMembers ms
end

/-! ## Top level of `_parse_structured_response` -/

/-- Python exceptions surfaced by the modelled functions: `ValueError` raised
by input validation, and the `TypeError` that CPython raises when the parsed
JSON value does not support the `in`/item-assignment protocol used on it. -/
inductive PyError where
  | valueError (msg : String)
  | typeError
deriving DecidableEq

/-- Truncation applied to `raw_response`:
`full_text[:500] + "..." if len(full_text) > 500 else full_text`. -/
def truncate500 (t : List Char) : List Char :=
  if 500 < t.length then t.take 500 ++ "...".data else t

/-- Result dict for an empty response. -/
def emptyResponseObj : JsonVal :=
  .obj [("error".data, .str "Empty response".data),
        ("issues".data, .arr []),
        ("summary".data, .str [])]

/-- Result dict when no strategy produced a (non-empty) candidate. -/
def noJsonObj (t : List Char) : JsonVal :=
  .obj [("error".data, .str "Could not find JSON in response".data),
        ("raw_response".data, .str (truncate500 t)),
        ("issues".data, .arr []),
        ("summary".data, .str [])]

/-- Result dict when the candidate failed to parse.  The source interpolates
the `json.JSONDecodeError` text after the colon; the detail is not modelled
(no statement below depends on it). -/
def parseFailObj (t : List Char) : JsonVal :=
  .obj [("error".data, .str "Could not parse JSON: ".data),
        ("raw_response".data, .str (truncate500 t)),
        ("issues".data, .arr []),
        ("summary".data, .str [])]

/-- Python's `key in value` for a loaded JSON value: key test on a dict,
membership on a list, substring test on a string; `TypeError` otherwise
(`None`, booleans, numbers are not containers). -/
def pyContains (v : JsonVal) (k : List Char) : Except PyError Bool :=
  match v with
  | .obj ms => .ok (objHasKey ms k)
  | .arr xs => .ok (xs.contains (.str k))
  | .str s => .ok (hasSub k s)
  | _ => .error .typeError

/-- Python's `value[k] = x`: only a dict supports string-key assignment;
`TypeError` otherwise. -/
def pySetItem (v : JsonVal) (k : List Char) (x : JsonVal) : Except PyError JsonVal :=
  match v with
  | .obj ms => .ok (.obj (objInsert ms k x))
  | _ => .error .typeError

/-- The key-ensuring epilogue of `_parse_structured_response`: make sure the
parsed value carries `issues` and `summary` keys, via the `in`/item-assignment
protocol (whose `TypeError` on non-dict values propagates). -/
def ensureKeys (result : JsonVal) : Except PyError JsonVal := do
  let hasIssues ← pyContains result "issues".data
  let result ← if hasIssues then pure result else pySetItem result "issues".data (.arr [])
  let hasSummary ← pyContains result "summary".data
  let result ← if hasSummary then pure result else pySetItem result "summary".data (.str [])
  return result

/-- Model of `_parse_structured_response` (`src/agent.py`).  Only the truly
empty text short-circuits (`if not full_text`); then the strategy chain runs;
a falsy (empty) candidate is treated like no candidate by `if json_str:`; on a
successful parse the `issues`/`summary` keys are ensured present. -/
def _parse_structured_response (full_text : List Char) : Except PyError JsonVal :=
  if full_text = [] then .ok emptyResponseObj
  else
    match extractCandidate full_text with
    | some json_str =>
      if json_str = [] then .ok (noJsonObj full_text)
      else
        match jsonLoads json_str with
        | some result => ensureKeys result
        | none => .ok (parseFailObj full_text)
    | none => .ok (noJsonObj full_text)

/-! ## Well-formedness of loaded JSON values -/

/-- Rest-of-input contexts in which a serialized value can be re-lexed without
absorbing following characters: end of input, or one of the delimiter
characters that follow a value inside serialized JSON. -/
def DelimRest (rest : List Char) : Prop :=
  rest = [] ∨ ∃ c r, rest = c :: r ∧ (c = ',' ∨ c = ']' ∨ c = '\x7d')

/-- Non-empty all-digit run. -/
def digitsNE (ds : List Char) : Prop :=
  ds ≠ [] ∧ ∀ c ∈ ds, c.isDigit

/-- Integer part of the number grammar, `0|[1-9]\d*` (with optional sign kept
separately). -/
def IntPartOK (ip : List Char) : Prop :=
  ip = ['0'] ∨ ∃ c ds, ip = c :: ds ∧ c.isDigit ∧ c ≠ '0' ∧ ∀ d ∈ ds, d.isDigit

/-- Fraction part of the number grammar, `(\.\d+)?`. -/
def FracOK (f : List Char) : Prop :=
  f = [] ∨ ∃ ds, f = '.' :: ds ∧ digitsNE ds

/-- Exponent part of the number grammar, `([eE][-+]?\d+)?`. -/
def ExpOK (e : List Char) : Prop :=
  e = [] ∨ ∃ ec sg ds, e = ec :: (sg ++ ds) ∧ (ec = 'e' ∨ ec = 'E') ∧
    (sg = [] ∨ sg = ['+'] ∨ sg = ['-']) ∧ digitsNE ds

/-- Exactly the lexemes matched in full by the scanner's number regex. -/
def NumOK (lex : List Char) : Prop :=
  ∃ sign ip f e, lex = sign ++ ip ++ f ++ e ∧ (sign = [] ∨ sign = ['-']) ∧
    IntPartOK ip ∧ FracOK f ∧ ExpOK e

/-- Number lexemes the scanner can produce: a regex match, or one of the
`NaN`/`Infinity`/`-Infinity` constants it accepts by default. -/
def NumLexOK (lex : List Char) : Prop :=
  NumOK lex ∨ lex = "NaN".data ∨ lex = "Infinity".data ∨ lex = "-Infinity".data

/-- Values in the image of `jsonLoads`: number lexemes match the grammar in
full (or are one of the accepted constants), and object keys are
duplicate-free (the parser collapses duplicates). -/
inductive WF : JsonVal → Prop
  | null : WF .null
  | bool (b : Bool) : WF (.bool b)
  | num (lex : List Char) : NumLexOK lex → WF (.num lex)
  | str (s : List Char) : WF (.str s)
  | arr (xs : List JsonVal) : (∀ x ∈ xs, WF x) → WF (.arr xs)
  | obj (ms : List (List Char × JsonVal)) : (∀ kv ∈ ms, WF kv.2) →
      (ms.map Prod.fst).Nodup → WF (.obj ms)

mutual
/-- No `NaN` value anywhere inside the loaded JSON value.  CPython's float
`nan` never compares `==`-equal to itself, so only NaN-free dicts compare
member-wise equal to a structurally identical reload; `Infinity`/`-Infinity`
are unproblematic (`inf == inf`). -/
def noNaN : JsonVal → Bool
  | .null => true
  | .bool _ => true
  | .num lex => !(lex == "NaN".data)
  | .str _ => true
  | .arr xs => noNaNArr xs
  | .obj ms => noNaNObj ms

/-- `noNaN` over the elements of an array. -/
def noNaNArr : List JsonVal → Bool
  | [] => true
  | x :: xs => noNaN x && noNaNArr xs

/-- `noNaN` over the values of an object. -/
def noNaNObj : List (List Char × JsonVal) → Bool
  | [] => true
  | kv :: ms => noNaN kv.2 && noNaNObj ms
end

/-- Round-trip target for one value: some fuel bounded by the serialized
length suffices for the parser, in value mode, to read the serialization back
exactly (under any leading JSON whitespace and any delimiter-headed rest). -/
def ParsesBack (v : JsonVal) : Prop :=
  ∃ f, f ≤ (dumpsV v).length ∧ ∀ w rest g, (∀ c ∈ w, isJsonWs c = true) → DelimRest rest →
    f ≤ g → parseStep g .value (w ++ (dumpsV v ++ rest)) = some (v, rest)

/-! ## Conversation data model (`src/adapters/base.py`) -/

/-- Message role in the conversation. -/
inductive Role where
  | SYSTEM
  | USER
  | ASSISTANT
  | TOOL
deriving DecidableEq

/-- A tool call requested by the model.  `arguments` is the keyword-argument
mapping (a JSON object in every adapter). -/
structure ToolCall where
  id : String
  name : String
  arguments : JsonVal := .obj []

/-- Provider-agnostic message format. -/
structure Message where
  role : Role
  content : String
  tool_calls : Option (List ToolCall) := none
  tool_call_id : Option String := none

/-- The tool registry (`TOOL_FUNCTIONS` in `src/tools.py`): a fixed mapping
from tool name to callable.  A tool callable takes its keyword arguments and
either returns the string `str(func(**args))` or raises, modelled as
`Except`: the `.error` carries `str(e)` for the raised exception `e` (this
covers the `TypeError` of a keyword-argument mismatch as well, since the call
happens inside the `try` block). -/
abbrev Registry := String → Option (JsonVal → Except String String)

/-- The model adapter consumed by the driver, as a function of the message
history.  The constant arguments of `adapter.generate` (tool declarations,
system prompt, temperature) are absorbed into the function; its result is the
`(text, tool_calls)` pair.  Transport errors are not modelled: per the spec
they propagate past the driver untouched, so a run in which the adapter
raises never produces a `ReviewResult` at all. -/
abbrev Adapter := List Message → Option String × List ToolCall

/-- Model of `_execute_tool` (`src/agent.py`): dispatch on the registry; a
raising tool is downgraded to `"Error executing <name>: <detail>"`, an unknown
name to `"Unknown tool: <name>"`; always returns a string. -/
def _execute_tool (registry : Registry) (tool_call : ToolCall) : String :=
  match registry tool_call.name with
  | some func =>
    (match func tool_call.arguments with
     | .ok result => result
     | .error e => "Error executing " ++ tool_call.name ++ ": " ++ e)
  | none => "Unknown tool: " ++ tool_call.name

/-- Python's `x or default` for an optional string: `None` and the empty
string are falsy. -/
def pyOrStr : Option String → String → String
  | none, d => d
  | some s, d => if s = "" then d else s

/-- The TOOL messages appended for one round of tool calls, in the order the
model issued the calls. -/
def toolMessages (registry : Registry) (tcs : List ToolCall) : List Message :=
  tcs.map fun tc =>
    { role := .TOOL, content := _execute_tool registry tc, tool_call_id := some tc.id }

/-- Outcome of the driver loop: whether a tool-call-free response ended it
(`finished`), the final text of that response, the number of `adapter.generate`
invocations made, and the final driver-owned message sequence. -/
structure LoopExit where
  finished : Bool
  text : Option String
  calls : Nat
  messages : List Message

/-- The shared iteration loop of `review_proto` and `review_proto_structured`
(`for iteration in range(max_iterations): ...`), which have textually identical
loop bodies: call the adapter; if it requests no tools the loop finishes with
its text; otherwise append one ASSISTANT message carrying the calls, then one
TOOL message per call via `_execute_tool`, and iterate.  `calls` accumulates
`iterations_used` (`iteration + 1` at each entry). -/
def runLoop (adapter : Adapter) (registry : Registry) :
    Nat → Nat → List Message → LoopExit
  | 0, calls, msgs => { finished := false, text := none, calls := calls, messages := msgs }
  | fuel + 1, calls, msgs =>
    let (text, tool_calls) := adapter msgs
    if tool_calls.isEmpty then
      { finished := true, text := text, calls := calls + 1, messages := msgs }
    else
      runLoop adapter registry fuel (calls + 1)
        (msgs ++ ({ role := .ASSISTANT, content := pyOrStr text "",
                    tool_calls := some tool_calls } : Message) :: toolMessages registry tool_calls)

/-! ## Review entry points (`src/agent.py`) -/

/-- Per-call configuration.  The source defaults `max_iterations`/
`max_input_size` from the environment variables `MAX_ITERATIONS` and
`MAX_INPUT_SIZE`, falling back to 10 and 100 KiB. -/
structure ReviewContext where
  provider : Option String := none
  model_name : Option String := none
  focus : String := "event"
  max_iterations : Nat := 10
  max_input_size : Nat := 102400

/-- Result of a proto review including adapter metadata; `content` is a string
for `review_proto` and the extractor's dict for `review_proto_structured`. -/
structure ReviewResult (α : Type) where
  content : α
  provider_name : String
  model_name : String
  iterations_used : Nat := 0

/-- Model of `_validate_input`: the emptiness check `not proto_content or not
proto_content.strip()` first, then the byte-size bound on the UTF-8 encoding,
then the optional syntax validation (an external collaborator passed in as
`syntaxCheck`; `none` models `grpcio-tools` being absent, in which case the
step is skipped). -/
def _validate_input (syntaxCheck : Option (String → Except String Unit))
    (proto_content : String) (max_size : Nat) : Except PyError Unit :=
  if proto_content.data = [] ∨ pyStrip proto_content.data = [] then
    .error (.valueError "Proto content cannot be empty")
  else if max_size < proto_content.utf8ByteSize then
    .error (.valueError ("Proto content size (" ++ toString proto_content.utf8ByteSize ++
      " bytes) exceeds maximum allowed size (" ++ toString max_size ++ " bytes)"))
  else
    match syntaxCheck with
    | none => .ok ()
    | some check =>
      match check proto_content with
      | .ok () => .ok ()
      | .error m => .error (.valueError ("Proto syntax error: " ++ m))

/-- Model of `_create_review_prompt`: the event-focused or REST-focused review
prompt with the proto content interpolated into a fenced block. -/
def _create_review_prompt (proto_content : String) (focus : String) : String :=
  if focus = "event" then
    "Please review the following Protocol Buffer definition for semantic issues.\n\n" ++
    "This proto defines EVENT MESSAGES (not REST resources). Focus on:\n" ++
    "1. Event identification (event_id, idempotency patterns)\n" ++
    "2. Timestamp fields (event_time, created_at patterns) - should use google.protobuf.Timestamp\n" ++
    "3. Correlation/tracing (correlation_id, trace_id, span_id)\n" ++
    "4. Event versioning (event_version, schema_version)\n" ++
    "5. Enum safety for schema evolution (UNSPECIFIED = 0)\n" ++
    "6. Nullable fields with wrapper types or optional keyword\n" ++
    "7. Type appropriateness for event payloads\n\n" ++
    "Here is the proto file:\n\n```protobuf\n" ++ proto_content ++ "\n```\n\n" ++
    "Analyze this proto and provide your findings. Use your tools to look up specific guidance as needed."
  else
    "Please review the following Protocol Buffer definition for semantic issues.\n\n" ++
    "Focus on:\n" ++
    "1. Type appropriateness (should string be Timestamp? should double be Money?)\n" ++
    "2. Well-known type usage\n" ++
    "3. Standard method patterns (Get, List, Create, Update, Delete)\n" ++
    "4. Resource design patterns\n" ++
    "5. Consistency issues\n" ++
    "6. Common anti-patterns\n\n" ++
    "Here is the proto file:\n\n```protobuf\n" ++ proto_content ++ "\n```\n\n" ++
    "Please analyze this proto and provide your findings. Use your tools to look up specific AIP guidance as needed."

/-- Addendum appended to the base prompt by `review_proto_structured`, asking
for the fixed JSON shape. -/
def structuredAddendum : String :=
  "\n\nAfter your analysis, provide your final response as a JSON object with this exact structure:\n" ++
  "\x7b\n  \"issues\": [\n    \x7b\n      \"severity\": \"error|warning|suggestion\",\n" ++
  "      \"location\": \"MessageName.field_name or MethodName\",\n" ++
  "      \"issue\": \"Description of the problem\",\n" ++
  "      \"recommendation\": \"How to fix it\",\n" ++
  "      \"reference\": \"AIP-XXX or ORG-XXX or null\"\n    \x7d\n  ],\n" ++
  "  \"summary\": \"Brief summary of findings\"\n\x7d\n\n" ++
  "Use your tools to look up specific guidance as needed, then provide the structured JSON response."

/-- Model of `review_proto`: validate, build the initial USER message, run the
loop; a tool-call-free response yields its text (`text or "No issues found."`),
exhaustion yields the fixed error content with `iterations_used` as left by the
loop.  The adapter's metadata strings are passed alongside it (the source reads
them off the adapter object built by `create_adapter`, a collaborator). -/
def review_proto (syntaxCheck : Option (String → Except String Unit))
    (adapter : Adapter) (registry : Registry)
    (provider_name model_name : String) (ctx : ReviewContext)
    (proto_content : String) : Except PyError (ReviewResult String) := do
  _validate_input syntaxCheck proto_content ctx.max_input_size
  let userMsg : Message :=
    { role := .USER, content := _create_review_prompt proto_content ctx.focus }
  let exit := runLoop adapter registry ctx.max_iterations 0 [userMsg]
  if exit.finished then
    return { content := pyOrStr exit.text "No issues found.",
             provider_name := provider_name, model_name := model_name,
             iterations_used := exit.calls }
  else
    return { content := "Error: Maximum iterations reached without completing review",
             provider_name := provider_name, model_name := model_name,
             iterations_used := exit.calls }

/-- Model of `review_proto_structured`: same validation and loop (over the
prompt extended by `structuredAddendum`); a tool-call-free response is passed
through `_parse_structured_response` (whose `TypeError` would propagate),
exhaustion yields the fixed error dict. -/
def review_proto_structured (syntaxCheck : Option (String → Except String Unit))
    (adapter : Adapter) (registry : Registry)
    (provider_name model_name : String) (ctx : ReviewContext)
    (proto_content : String) : Except PyError (ReviewResult JsonVal) := do
  _validate_input syntaxCheck proto_content ctx.max_input_size
  let userMsg : Message :=
    { role := .USER,
      content := _create_review_prompt proto_content ctx.focus ++ structuredAddendum }
  let exit := runLoop adapter registry ctx.max_iterations 0 [userMsg]
  if exit.finished then do
    let parsed ← _parse_structured_response (pyOrStr exit.text "").data
    return { content := parsed,
             provider_name := provider_name, model_name := model_name,
             iterations_used := exit.calls }
  else
    return { content := .obj [("error".data, .str "Maximum iterations reached".data),
                              ("issues".data, .arr []), ("summary".data, .str [])],
             provider_name := provider_name, model_name := model_name,
             iterations_used := exit.calls }

/-! ## Driver lemmas -/

/-- Pairing invariant on a message sequence: every ASSISTANT message carrying
k tool calls is immediately followed by k TOOL messages whose `tool_call_id`s
match those calls in order. -/
def pairingOK (msgs : List Message) : Prop :=
  ∀ i m tcs, msgs[i]? = some m → m.role = .ASSISTANT → m.tool_calls = some tcs →
    ∀ j tc, tcs[j]? = some tc →
      ∃ m', msgs[i + 1 + j]? = some m' ∧ m'.role = .TOOL ∧ m'.tool_call_id = some tc.id

theorem toolMessages_getElem? (registry : Registry) (tcs : List ToolCall) (j : Nat)
    (tc : ToolCall) (h : tcs[j]? = some tc) :
    (toolMessages registry tcs)[j]? =
      some { role := .TOOL, content := _execute_tool registry tc, tool_call_id := some tc.id } := by
  simp [toolMessages, List.getElem?_map, h]

theorem pairingOK_append_block (msgs : List Message) (registry : Registry)
    (text : String) (tcs : List ToolCall) (h : pairingOK msgs) :
    pairingOK (msgs ++
      ({ role := .ASSISTANT, content := text, tool_calls := some tcs } : Message) ::
        toolMessages registry tcs) := by
  intro i m tcs' hget hrole htc j tc hjtc
  rcases lt_trichotomy i msgs.length with hi | hi | hi
  · rw [List.getElem?_append_left hi] at hget
    obtain ⟨m', hm', hrole', hid'⟩ := h i m tcs' hget hrole htc j tc hjtc
    have hlt : i + 1 + j < msgs.length := (List.getElem?_eq_some.mp hm').1
    exact ⟨m', by rw [List.getElem?_append_left hlt]; exact hm', hrole', hid'⟩
  · subst hi
    rw [List.getElem?_append_right (le_refl _), Nat.sub_self] at hget
    simp only [List.getElem?_cons_zero, Option.some.injEq] at hget
    subst hget
    simp only [Option.some.injEq] at htc
    subst htc
    refine ⟨{ role := .TOOL, content := _execute_tool registry tc,
              tool_call_id := some tc.id }, ?_, rfl, rfl⟩
    rw [List.getElem?_append_right (by omega)]
    have harith : msgs.length + 1 + j - msgs.length = j + 1 := by omega
    rw [harith]
    simp only [List.getElem?_cons_succ]
    exact toolMessages_getElem? registry tcs j tc hjtc
  · rw [List.getElem?_append_right (le_of_lt hi)] at hget
    rcases hk : i - msgs.length with _ | k
    · omega
    · rw [hk, List.getElem?_cons_succ] at hget
      have hm : ∃ tc', tcs[k]? = some tc' ∧
          m = { role := .TOOL, content := _execute_tool registry tc',
                tool_call_id := some tc'.id } := by
        simp only [toolMessages, List.getElem?_map] at hget
        rcases h' : tcs[k]? with _ | tc'
        · rw [h'] at hget; exact Option.noConfusion hget
        · rw [h'] at hget
          simp only [Option.map_some', Option.some.injEq] at hget
          exact ⟨tc', rfl, hget.symm⟩
      obtain ⟨tc', -, rfl⟩ := hm
      exact absurd hrole (by simp)

theorem runLoop_pairing (adapter : Adapter) (registry : Registry) :
    ∀ fuel calls msgs, pairingOK msgs →
      pairingOK (runLoop adapter registry fuel calls msgs).messages := by
  intro fuel
  induction fuel with
  | zero => intro calls msgs h; exact h
  | succ n ih =>
    intro calls msgs h
    rw [runLoop]
    rcases hA : adapter msgs with ⟨text, tcs⟩
    cases he : tcs.isEmpty
    · simp only [hA, he, Bool.false_eq_true, if_false]
      exact ih _ _ (pairingOK_append_block msgs registry (pyOrStr text "") tcs h)
    · simp only [hA, he, if_true]
      exact h

theorem runLoop_messages_grow (adapter : Adapter) (registry : Registry) :
    ∀ fuel calls msgs, msgs <+: (runLoop adapter registry fuel calls msgs).messages := by
  intro fuel
  induction fuel with
  | zero => intro calls msgs; exact List.prefix_refl _
  | succ n ih =>
    intro calls msgs
    rw [runLoop]
    rcases hA : adapter msgs with ⟨text, tcs⟩
    cases he : tcs.isEmpty
    · simp only [hA, he, Bool.false_eq_true, if_false]
      exact (List.prefix_append msgs _).trans (ih _ _)
    · simp only [hA, he, if_true]
      exact List.prefix_refl _

theorem runLoop_calls_le (adapter : Adapter) (registry : Registry) :
    ∀ fuel calls msgs, (runLoop adapter registry fuel calls msgs).calls ≤ calls + fuel := by
  intro fuel
  induction fuel with
  | zero => intro calls msgs; exact le_refl _
  | succ n ih =>
    intro calls msgs
    rw [runLoop]
    rcases hA : adapter msgs with ⟨text, tcs⟩
    cases he : tcs.isEmpty
    · simp only [hA, he, Bool.false_eq_true, if_false]
      calc (runLoop adapter registry n (calls + 1) _).calls ≤ calls + 1 + n := ih _ _
        _ ≤ calls + (n + 1) := by omega
    · simp only [hA, he, if_true]; omega

theorem runLoop_calls_ge (adapter : Adapter) (registry : Registry) :
    ∀ fuel calls msgs, calls ≤ (runLoop adapter registry fuel calls msgs).calls := by
  intro fuel
  induction fuel with
  | zero => intro calls msgs; exact le_refl _
  | succ n ih =>
    intro calls msgs
    rw [runLoop]
    rcases hA : adapter msgs with ⟨text, tcs⟩
    cases he : tcs.isEmpty
    · simp only [hA, he, Bool.false_eq_true, if_false]
      calc calls ≤ calls + 1 := by omega
        _ ≤ _ := ih _ _
    · simp only [hA, he, if_true]; omega

theorem runLoop_calls_pos (adapter : Adapter) (registry : Registry)
    (fuel calls : Nat) (msgs : List Message) (hf : 1 ≤ fuel) :
    calls + 1 ≤ (runLoop adapter registry fuel calls msgs).calls := by
  rcases fuel with _ | n
  · omega
  · rw [runLoop]
    rcases hA : adapter msgs with ⟨text, tcs⟩
    cases he : tcs.isEmpty
    · simp only [hA, he, Bool.false_eq_true, if_false]
      exact runLoop_calls_ge adapter registry n (calls + 1) _
    · simp only [hA, he, if_true]; omega

theorem runLoop_exhausts (adapter : Adapter) (registry : Registry)
    (htools : ∀ msgs, (adapter msgs).2 ≠ []) :
    ∀ fuel calls msgs, (runLoop adapter registry fuel calls msgs).finished = false ∧
      (runLoop adapter registry fuel calls msgs).calls = calls + fuel := by
  intro fuel
  induction fuel with
  | zero => intro calls msgs; exact ⟨rfl, rfl⟩
  | succ n ih =>
    intro calls msgs
    rw [runLoop]
    rcases hA : adapter msgs with ⟨text, tcs⟩
    have he : tcs.isEmpty = false := by
      have hne := htools msgs
      rw [hA] at hne
      simpa [List.isEmpty_iff] using hne
    simp only [hA, he, Bool.false_eq_true, if_false]
    obtain ⟨h1, h2⟩ := ih (calls + 1) (msgs ++ _)
    exact ⟨h1, by omega⟩

/-! ## Claims about the driver -/

/-- C1 (amended).  For every configuration and adapter, a returned
`ReviewResult` of `review_proto` has `iterations_used` equal to the number of
`adapter.generate` invocations made by the loop, hence at most
`max_iterations`; and it is nonzero whenever `max_iterations ≥ 1`.  (As stated
the claim fails only at `max_iterations = 0`, where the loop body never runs
and `iterations_used = 0`; see the counterexample.) -/
theorem c1_iterations_bounds (syntaxCheck : Option (String → Except String Unit))
    (adapter : Adapter) (registry : Registry) (pn mn : String) (ctx : ReviewContext)
    (proto_content : String) (r : ReviewResult String)
    (h : review_proto syntaxCheck adapter registry pn mn ctx proto_content = .ok r) :
    r.iterations_used ≤ ctx.max_iterations ∧
    (1 ≤ ctx.max_iterations → 1 ≤ r.iterations_used) ∧
    r.iterations_used = (runLoop adapter registry ctx.max_iterations 0
      [{ role := .USER, content := _create_review_prompt proto_content ctx.focus }]).calls := by
  rw [review_proto] at h
  rcases hv : _validate_input syntaxCheck proto_content ctx.max_input_size with e | u
  · rw [hv] at h
    simp [Bind.bind, Except.bind] at h
  · rcases u
    rw [hv] at h
    simp only [Bind.bind, Except.bind] at h
    set E := runLoop adapter registry ctx.max_iterations 0
      [{ role := .USER, content := _create_review_prompt proto_content ctx.focus }] with hE
    cases hf : E.finished
    · rw [hf] at h
      simp only [Bool.false_eq_true, if_false, pure, Except.pure, Except.ok.injEq] at h
      subst h
      refine ⟨?_, ?_, rfl⟩
      · simpa using runLoop_calls_le adapter registry ctx.max_iterations 0 _
      · intro h1
        simpa using runLoop_calls_pos adapter registry ctx.max_iterations 0 _ h1
    · rw [hf] at h
      simp only [if_true, pure, Except.pure, Except.ok.injEq] at h
      subst h
      refine ⟨?_, ?_, rfl⟩
      · simpa using runLoop_calls_le adapter registry ctx.max_iterations 0 _
      · intro h1
        simpa using runLoop_calls_pos adapter registry ctx.max_iterations 0 _ h1

/-- C1 witness: a run with `max_iterations = 3` against an adapter that
answers without tool calls at once. -/
theorem c1_iterations_bounds_witness :
    (review_proto none (fun _ => (some "done", [])) (fun _ => none) "stub" "stub-model"
        { max_iterations := 3 } "message Foo \x7b\x7d" =
      .ok { content := "done", provider_name := "stub", model_name := "stub-model",
            iterations_used := 1 }) ∧
    ((1 : Nat) ≤ 3 ∧ ((1 : Nat) ≤ 3 → 1 ≤ 1)) :=
  ⟨rfl, (c1_iterations_bounds none (fun _ => (some "done", [])) (fun _ => none)
      "stub" "stub-model" { max_iterations := 3 } "message Foo \x7b\x7d"
      { content := "done", provider_name := "stub", model_name := "stub-model",
        iterations_used := 1 } rfl).1,
    fun _ => le_refl 1⟩

/-- C1 counterexample to the claim as stated: with `max_iterations = 0` the
loop body never runs, `review_proto` returns normally, and
`iterations_used = 0`, contradicting "`iterations_used` is … never zero". -/
theorem c1_zero_iterations_counterexample :
    review_proto none (fun _ => (some "done", [])) (fun _ => none) "stub" "stub-model"
      { max_iterations := 0 } "message Foo \x7b\x7d" =
    .ok { content := "Error: Maximum iterations reached without completing review",
          provider_name := "stub", model_name := "stub-model", iterations_used := 0 } := rfl

/-- C2.  For every adapter, registry, iteration bound and initial user prompt,
the message sequence owned by the driver loop (of both `review_proto` and
`review_proto_structured`, which share `runLoop`) satisfies the pairing
invariant: each ASSISTANT message carrying k tool calls is immediately
followed by k TOOL messages whose `tool_call_id`s match those calls in the
order they were issued. -/
theorem c2_message_pairing (adapter : Adapter) (registry : Registry)
    (max_iterations : Nat) (userContent : String) :
    pairingOK (runLoop adapter registry max_iterations 0
      [{ role := .USER, content := userContent }]).messages := by
  apply runLoop_pairing
  intro i m tcs hget hrole htc
  rcases i with _ | n
  · simp only [List.getElem?_cons_zero, Option.some.injEq] at hget
    subst hget
    exact absurd hrole (by simp)
  · simp only [List.getElem?_cons_succ, List.getElem?_nil] at hget
    exact Option.noConfusion hget

/-- C3.  Tool execution always yields a string result and never aborts the
loop: an unknown name yields `"Unknown tool: <name>"`, a raising tool yields
`"Error executing <name>: <detail>"`, and in either case the loop appends a
TOOL message carrying that string for the call and continues. -/
theorem c3_tool_error_containment (registry : Registry) (tc : ToolCall) :
    (registry tc.name = none → _execute_tool registry tc = "Unknown tool: " ++ tc.name) ∧
    (∀ f e, registry tc.name = some f → f tc.arguments = .error e →
      _execute_tool registry tc = "Error executing " ++ tc.name ++ ": " ++ e) ∧
    (∀ (adapter : Adapter) (fuel calls : Nat) (msgs : List Message) text tcs,
      adapter msgs = (text, tcs) → tc ∈ tcs →
      ∃ m ∈ (runLoop adapter registry (fuel + 1) calls msgs).messages,
        m.role = .TOOL ∧ m.tool_call_id = some tc.id ∧
        m.content = _execute_tool registry tc) := by
  refine ⟨?_, ?_, ?_⟩
  · intro h
    simp [_execute_tool, h]
  · intro f e hf he
    simp [_execute_tool, hf, he]
  · intro adapter fuel calls msgs text tcs hA htc
    rw [runLoop]
    have hne : tcs.isEmpty = false := by
      rcases tcs with _ | ⟨t, ts⟩
      · exact absurd htc (List.not_mem_nil tc)
      · rfl
    simp only [hA, hne, Bool.false_eq_true, if_false]
    refine ⟨{ role := .TOOL, content := _execute_tool registry tc,
              tool_call_id := some tc.id }, ?_, rfl, rfl, rfl⟩
    apply (runLoop_messages_grow adapter registry fuel (calls + 1) _).subset
    exact List.mem_append_right _ (List.mem_cons_of_mem _ (List.mem_map_of_mem _ htc))

/-- C3 witness: a registry with one tool that always raises, exercised on an
unknown name, on the raising tool, and inside one loop round. -/
theorem c3_tool_error_containment_witness :
    (_execute_tool (fun n => if n = "boom" then some (fun _ => .error "fail") else none)
        { id := "2", name := "missing" } = "Unknown tool: missing") ∧
    (_execute_tool (fun n => if n = "boom" then some (fun _ => .error "fail") else none)
        { id := "1", name := "boom" } = "Error executing boom: fail") ∧
    (∃ m ∈ (runLoop (fun _ => (none, [{ id := "1", name := "boom" }]))
        (fun n => if n = "boom" then some (fun _ => .error "fail") else none)
        1 0 []).messages,
      m.role = .TOOL ∧ m.tool_call_id = some "1" ∧
        m.content = _execute_tool
          (fun n => if n = "boom" then some (fun _ => .error "fail") else none)
          { id := "1", name := "boom" }) := by
  refine ⟨(c3_tool_error_containment
      (fun n => if n = "boom" then some (fun _ => .error "fail") else none)
      { id := "2", name := "missing" }).1 rfl,
    (c3_tool_error_containment
      (fun n => if n = "boom" then some (fun _ => .error "fail") else none)
      { id := "1", name := "boom" }).2.1 (fun _ => .error "fail") "fail" rfl rfl,
    (c3_tool_error_containment
      (fun n => if n = "boom" then some (fun _ => .error "fail") else none)
      { id := "1", name := "boom" }).2.2 (fun _ => (none, [{ id := "1", name := "boom" }]))
      0 0 [] none [{ id := "1", name := "boom" }] rfl (List.mem_singleton.mpr rfl)⟩

/-- C4.  If validation passes and the adapter requests at least one tool call
on every response, both review functions return normally after exactly
`max_iterations` adapter calls: `review_proto` with the fixed
"Maximum iterations reached" error content, `review_proto_structured` with the
error dict carrying empty `issues` and `summary`; both report
`iterations_used = max_iterations`. -/
theorem c4_exhaustion (syntaxCheck : Option (String → Except String Unit))
    (adapter : Adapter) (registry : Registry) (pn mn : String) (ctx : ReviewContext)
    (proto_content : String)
    (hval : _validate_input syntaxCheck proto_content ctx.max_input_size = .ok ())
    (htools : ∀ msgs, (adapter msgs).2 ≠ []) :
    review_proto syntaxCheck adapter registry pn mn ctx proto_content =
      .ok { content := "Error: Maximum iterations reached without completing review",
            provider_name := pn, model_name := mn,
            iterations_used := ctx.max_iterations } ∧
    review_proto_structured syntaxCheck adapter registry pn mn ctx proto_content =
      .ok { content := .obj [("error".data, .str "Maximum iterations reached".data),
                             ("issues".data, .arr []), ("summary".data, .str [])],
            provider_name := pn, model_name := mn,
            iterations_used := ctx.max_iterations } := by
  constructor
  · rw [review_proto, hval]
    obtain ⟨h1, h2⟩ := runLoop_exhausts adapter registry htools ctx.max_iterations 0
      [{ role := .USER, content := _create_review_prompt proto_content ctx.focus }]
    simp only [Bind.bind, Except.bind, h1, Bool.false_eq_true, if_false, pure, Except.pure,
      Except.ok.injEq]
    rw [h2]
    simp
  · rw [review_proto_structured, hval]
    obtain ⟨h1, h2⟩ := runLoop_exhausts adapter registry htools ctx.max_iterations 0
      [{ role := .USER,
         content := _create_review_prompt proto_content ctx.focus ++ structuredAddendum }]
    simp only [Bind.bind, Except.bind, h1, Bool.false_eq_true, if_false, pure, Except.pure,
      Except.ok.injEq]
    rw [h2]
    simp

/-- C4 witness: a concrete run with `max_iterations = 2` against an adapter
that always requests one tool call. -/
theorem c4_exhaustion_witness :
    (_validate_input none "message Foo \x7b\x7d" (ReviewContext.mk none none "event" 2 102400).max_input_size
      = .ok ()) ∧
    review_proto none (fun _ => (none, [{ id := "1", name := "lookup_aip" }])) (fun _ => none)
        "stub" "stub-model" (ReviewContext.mk none none "event" 2 102400) "message Foo \x7b\x7d" =
      .ok { content := "Error: Maximum iterations reached without completing review",
            provider_name := "stub", model_name := "stub-model", iterations_used := 2 } :=
  ⟨rfl,
    (c4_exhaustion none (fun _ => (none, [{ id := "1", name := "lookup_aip" }])) (fun _ => none)
      "stub" "stub-model" (ReviewContext.mk none none "event" 2 102400) "message Foo \x7b\x7d"
      rfl (fun _ => by simp)).1⟩

/-- C10.  A proto content that is non-empty but all-whitespace is rejected by
the initial validation of both entry points with
`ValueError("Proto content cannot be empty")`, for every adapter and registry
(in particular before any adapter call can occur). -/
theorem c10_whitespace_only_rejected (syntaxCheck : Option (String → Except String Unit))
    (adapter : Adapter) (registry : Registry) (pn mn : String) (ctx : ReviewContext)
    (proto_content : String) (_hne : proto_content.data ≠ [])
    (hws : ∀ c ∈ proto_content.data, isPySpace c = true) :
    review_proto syntaxCheck adapter registry pn mn ctx proto_content =
      .error (.valueError "Proto content cannot be empty") ∧
    review_proto_structured syntaxCheck adapter registry pn mn ctx proto_content =
      .error (.valueError "Proto content cannot be empty") := by
  have hstrip : pyStrip proto_content.data = [] := by
    have hd : proto_content.data.dropWhile isPySpace = [] :=
      List.dropWhile_eq_nil_iff.mpr hws
    simp [pyStrip, hd]
  have hv : _validate_input syntaxCheck proto_content ctx.max_input_size =
      .error (.valueError "Proto content cannot be empty") := by
    rw [_validate_input.eq_def, if_pos (Or.inr hstrip)]
  constructor
  · rw [review_proto, hv]; rfl
  · rw [review_proto_structured, hv]; rfl

/-- C10 witness: three spaces. -/
theorem c10_whitespace_only_rejected_witness :
    ("   ".data ≠ ([] : List Char)) ∧
    review_proto none (fun _ => (some "done", [])) (fun _ => none) "stub" "stub-model"
        {} "   " = .error (.valueError "Proto content cannot be empty") :=
  ⟨by decide,
    (c10_whitespace_only_rejected none (fun _ => (some "done", [])) (fun _ => none)
      "stub" "stub-model" {} "   " (by decide) (by decide)).1⟩

/-! ## Strategy-failure lemmas -/

theorem splitFirst_eq_none_of_head_not_mem (p : Char) (ps : List Char) :
    ∀ s : List Char, p ∉ s → splitFirst (p :: ps) s = none := by
  intro s
  induction s with
  | nil => intro _; simp [splitFirst, leadsWith]
  | cons c r ih =>
    intro h
    have hc : ¬ (p = c) := fun he => h (he ▸ List.mem_cons_self c r)
    have hr : p ∉ r := fun hm => h (List.mem_cons_of_mem c hm)
    simp [splitFirst, leadsWith, hc, ih hr]

theorem strat1_eq_none (s : List Char) (h : '`' ∉ s) : strat1 s = none := by
  have h7 : "```json".data = '`' :: "``json".data := rfl
  rw [strat1, h7, splitFirst_eq_none_of_head_not_mem '`' "``json".data s h]

theorem strat2_eq_none : ∀ s : List Char, '`' ∉ s → strat2 s = none := by
  intro s
  induction s with
  | nil => intro _; rfl
  | cons c r ih =>
    intro h
    have hc : ¬ ('`' = c) := fun he => h (he ▸ List.mem_cons_self c r)
    have hr : '`' ∉ r := fun hm => h (List.mem_cons_of_mem c hm)
    have h3 : "```".data = '`' :: '`' :: '`' :: [] := rfl
    simp [strat2, h3, leadsWith, hc, ih hr]

theorem strat3_eq_none : ∀ s : List Char, '\x7b' ∉ s → strat3 s = none := by
  intro s
  induction s with
  | nil => intro _; rfl
  | cons c r ih =>
    intro h
    have hc : ¬ (c = '\x7b') := fun he => h (he ▸ List.mem_cons_self c r)
    have hr : '\x7b' ∉ r := fun hm => h (List.mem_cons_of_mem c hm)
    simp [strat3, hc, ih hr]

theorem strat4_eq_none (s : List Char) (h : '\x7b' ∉ s) : strat4 s = none := by
  have ht : s.takeWhile (fun c => c != '\x7b') = s := by
    rw [List.takeWhile_eq_self_iff]
    intro c hc
    simp [bne_iff_ne]
    exact fun he => h (he ▸ hc)
  rw [strat4]
  simp only [ht, List.drop_length]

/-! ## Claims about the extractor: edge cases and concrete scenarios -/

/-- C5 fails on the code (code bug): on the input `"```json\nnull\n```"`
strategy 1 extracts the candidate `"null"`, `json.loads` yields `None`, and
the subsequent membership test `"issues" not in result` raises `TypeError`
(`argument of type 'NoneType' is not iterable`), which propagates out of
`_parse_structured_response` — contradicting "never raises an exception and
always returns a mapping containing at least `issues` and `summary`".  The
theorem evaluates the model at the failing input. -/
theorem c5_typeerror_on_nonobject :
    _parse_structured_response "```json\nnull\n```".data = .error .typeError := rfl

/-- C6 counterexample to the claim as stated: the whitespace-only input
`"   "` is truthy in Python, so it does not short-circuit; all four strategies
run and find no candidate, and the result is the could-not-find-JSON error
object (whose `error` text differs from the empty-response one), not the
"empty response" object. -/
theorem c6_whitespace_counterexample :
    _parse_structured_response "   ".data = .ok (noJsonObj "   ".data) ∧
    getStrField (noJsonObj "   ".data) "error".data =
      some "Could not find JSON in response".data ∧
    getStrField emptyResponseObj "error".data = some "Empty response".data ∧
    "Could not find JSON in response".data ≠ "Empty response".data :=
  ⟨rfl, rfl, rfl, by decide⟩

/-- C6 (amended).  Only the truly empty input short-circuits to the
"empty response" error object; a non-empty all-whitespace input instead runs
all four strategies, none of which finds a candidate (whitespace contains no
backtick and no brace), and returns the could-not-find-JSON error object —
which still has `error` set, `issues == []` and `summary == ""`. -/
theorem c6_empty_and_whitespace_amended (s : List Char)
    (hws : ∀ c ∈ s, isPySpace c = true) :
    (s = [] → _parse_structured_response s = .ok emptyResponseObj) ∧
    (s ≠ [] → _parse_structured_response s = .ok (noJsonObj s)) := by
  constructor
  · intro he; subst he; rfl
  · intro hne
    have hbt : '`' ∉ s := fun hm => absurd (hws _ hm) (by decide)
    have hbr : '\x7b' ∉ s := fun hm => absurd (hws _ hm) (by decide)
    rw [_parse_structured_response, if_neg hne]
    simp [extractCandidate, strat1_eq_none s hbt, strat2_eq_none s hbt,
      strat3_eq_none s hbr, strat4_eq_none s hbr]

/-- C6 amended witness at `"   "`. -/
theorem c6_empty_and_whitespace_amended_witness :
    (∀ c ∈ "   ".data, isPySpace c = true) ∧
    _parse_structured_response "   ".data = .ok (noJsonObj "   ".data) :=
  ⟨by decide, (c6_empty_and_whitespace_amended "   ".data (by decide)).2 (by decide)⟩

/-- C8.  On the spec's test input, the brace-matching scan `strat4` selects
exactly the substring from the first `\x7b` to its matching closing brace —
not a span truncated early by the stray `\x7d` in the trailing prose — and the
extractor returns the object with the single issue and summary `"s"`.  (On
this input strategy 3's pattern already matches the same span, so the chain
never consults strategy 4; the first conjunct evaluates strategy 4's selection
rule on the same input, and the second evaluates it on an input whose strings
contain braces and a backslash-escaped quote, exercising the in-string
skipping.) -/
theorem c8_brace_matching :
    strat4 ("noise \x7b \"issues\": [\x7b\"severity\":\"error\",\"location\":\"a.b\",\"issue\":\"x\",\"recommendation\":\"y\",\"reference\":null\x7d], \"summary\": \"s\" \x7d trailing text with a \x7d stray brace").data =
      some ("\x7b \"issues\": [\x7b\"severity\":\"error\",\"location\":\"a.b\",\"issue\":\"x\",\"recommendation\":\"y\",\"reference\":null\x7d], \"summary\": \"s\" \x7d").data ∧
    strat4 "x \x7b\"a\": \"\x7d\", \"b\": \"\\\" \x7d\"\x7d y".data =
      some "\x7b\"a\": \"\x7d\", \"b\": \"\\\" \x7d\"\x7d".data ∧
    _parse_structured_response ("noise \x7b \"issues\": [\x7b\"severity\":\"error\",\"location\":\"a.b\",\"issue\":\"x\",\"recommendation\":\"y\",\"reference\":null\x7d], \"summary\": \"s\" \x7d trailing text with a \x7d stray brace").data =
      .ok (.obj [("issues".data,
              .arr [.obj [("severity".data, .str "error".data),
                          ("location".data, .str "a.b".data),
                          ("issue".data, .str "x".data),
                          ("recommendation".data, .str "y".data),
                          ("reference".data, .null)]]),
            ("summary".data, .str "s".data)]) ∧
    getStrField (.obj [("issues".data,
              .arr [.obj [("severity".data, .str "error".data),
                          ("location".data, .str "a.b".data),
                          ("issue".data, .str "x".data),
                          ("recommendation".data, .str "y".data),
                          ("reference".data, .null)]]),
            ("summary".data, .str "s".data)]) "summary".data = some "s".data :=
  ⟨rfl, rfl, rfl, rfl⟩

/-! ## Fenced-block search lemmas -/

theorem leadsWith_append_self : ∀ pat r : List Char, leadsWith pat (pat ++ r) = true := by
  intro pat
  induction pat with
  | nil => intro r; rfl
  | cons p ps ih => intro r; simp [leadsWith, ih r]

theorem splitFirst_found (p : Char) (ps : List Char) :
    ∀ pre R : List Char, p ∉ pre →
      splitFirst (p :: ps) (pre ++ ((p :: ps) ++ R)) = some (pre, R) := by
  intro pre
  induction pre with
  | nil =>
    intro R _
    rw [List.nil_append, List.cons_append, splitFirst]
    have hlw : leadsWith (p :: ps) (p :: (ps ++ R)) = true := by
      have := leadsWith_append_self (p :: ps) R
      rwa [List.cons_append] at this
    rw [if_pos hlw]
    have hdrop : (p :: (ps ++ R)).drop (p :: ps).length = R := by
      have := List.drop_left (p :: ps) R
      rwa [List.cons_append] at this
    rw [hdrop]
  | cons c pre' ih =>
    intro R h
    have hc : ¬ (p = c) := fun he => h (he ▸ List.mem_cons_self c pre')
    have hpre : p ∉ pre' := fun hm => h (List.mem_cons_of_mem c hm)
    rw [List.cons_append, splitFirst]
    have hlw : leadsWith (p :: ps) (c :: (pre' ++ ((p :: ps) ++ R))) = false := by
      simp [leadsWith, hc]
    rw [hlw]
    simp only [Bool.false_eq_true, if_false, ih R hpre]

/-- First occurrence of the triple backtick in `S ++ "\n```" ++ after` is the
closing fence, provided it does not occur inside `S` (an occurrence cannot
span the boundary, since the separating character is a newline). -/
theorem splitFirst_close_fence :
    ∀ S after : List Char, hasSub "```".data S = false →
      splitFirst "```".data (S ++ ('\n' :: ("```".data ++ after))) = some (S ++ ['\n'], after) := by
  intro S
  induction S with
  | nil =>
    intro after _
    simp [splitFirst, leadsWith, List.append_eq]
  | cons c S' ih =>
    intro after h
    have hparts : leadsWith "```".data (c :: S') = false ∧ hasSub "```".data S' = false := by
      rw [hasSub] at h
      exact ⟨by cases hl : leadsWith "```".data (c :: S') <;> simp [hl] at h ⊢,
             by cases hs : hasSub "```".data S' <;> simp [hs] at h ⊢⟩
    have hlw : leadsWith "```".data (c :: (S' ++ ('\n' :: ("```".data ++ after)))) = false := by
      have h3 : "```".data = '`' :: '`' :: '`' :: [] := rfl
      rcases S' with _ | ⟨y, S''⟩
      · simp [h3, leadsWith]
      · rcases S'' with _ | ⟨z, S'''⟩
        · simp [h3, leadsWith]
        · have := hparts.1
          rw [h3] at this ⊢
          simp only [leadsWith, List.cons_append] at this ⊢
          exact this
    rw [List.cons_append, splitFirst, hlw]
    simp only [Bool.false_eq_true, if_false]
    rw [ih after hparts.2, List.cons_append]

/-- Strategy 1 on a well-formed ` ```json ` fence: prose before it containing
no backtick, a body starting with an opening brace and containing no triple
backtick, arbitrary text after the closing fence.  The captured candidate is
exactly the (stripped) body. -/
theorem strat1_fenced (before S' after : List Char)
    (hb : '`' ∉ before) (hS : hasSub "```".data ('\x7b' :: S') = false) :
    strat1 (before ++ ("```json".data ++
        ('\n' :: (('\x7b' :: S') ++ ('\n' :: ("```".data ++ after)))))) =
      some (pyStrip ('\x7b' :: S')) := by
  have h7 : "```json".data = '`' :: "``json".data := rfl
  have hfind := splitFirst_found '`' "``json".data before
    ('\n' :: (('\x7b' :: S') ++ ('\n' :: ("```".data ++ after)))) hb
  rw [← h7] at hfind
  have hdrop : ('\n' :: (('\x7b' :: S') ++ ('\n' :: ("```".data ++ after)))).dropWhile isPySpace
      = ('\x7b' :: S') ++ ('\n' :: ("```".data ++ after)) := by
    simp [List.dropWhile, isPySpace]
  have hclose := splitFirst_close_fence ('\x7b' :: S') after hS
  simp only [strat1, hfind, hdrop, hclose, List.getLast?_concat, List.dropLast_concat]
  simp

/-- C7.  The chain stops at the first strategy that finds a candidate; in
particular, for any text consisting of a ` ```json ` fence whose interior is
the object `\x7b"issues": [], "summary": "ok"\x7d`, surrounded by prose before
(no backtick: text containing fence markers is not prose) and arbitrary text
after the closing fence, strategy 1 itself finds exactly that interior, and
the extractor returns exactly that object. -/
theorem c7_fenced_json_first_strategy (before after : List Char) (hb : '`' ∉ before) :
    strat1 (before ++ ("```json\n\x7b\"issues\": [], \"summary\": \"ok\"\x7d\n```".data ++ after)) =
      some "\x7b\"issues\": [], \"summary\": \"ok\"\x7d".data ∧
    _parse_structured_response
        (before ++ ("```json\n\x7b\"issues\": [], \"summary\": \"ok\"\x7d\n```".data ++ after)) =
      .ok (.obj [("issues".data, .arr []), ("summary".data, .str "ok".data)]) := by
  have hshape : "```json\n\x7b\"issues\": [], \"summary\": \"ok\"\x7d\n```".data ++ after =
      "```json".data ++ ('\n' :: (('\x7b' :: "\"issues\": [], \"summary\": \"ok\"\x7d".data) ++
        ('\n' :: ("```".data ++ after)))) := rfl
  have h1 : strat1 (before ++
      ("```json\n\x7b\"issues\": [], \"summary\": \"ok\"\x7d\n```".data ++ after)) =
      some "\x7b\"issues\": [], \"summary\": \"ok\"\x7d".data := by
    rw [hshape, strat1_fenced before "\"issues\": [], \"summary\": \"ok\"\x7d".data after hb (by decide)]
    rfl
  refine ⟨h1, ?_⟩
  have hne : before ++ ("```json\n\x7b\"issues\": [], \"summary\": \"ok\"\x7d\n```".data ++ after) ≠ [] := by
    rcases before with _ | ⟨b, bs⟩ <;> simp
  rw [_parse_structured_response, if_neg hne]
  simp only [extractCandidate, h1]
  rfl

/-- C7 witness: concrete prose around the fence. -/
theorem c7_fenced_json_first_strategy_witness :
    ('`' ∉ "Here is my analysis.\n".data) ∧
    _parse_structured_response ("Here is my analysis.\n".data ++
        ("```json\n\x7b\"issues\": [], \"summary\": \"ok\"\x7d\n```".data ++ "\nDone.".data)) =
      .ok (.obj [("issues".data, .arr []), ("summary".data, .str "ok".data)]) :=
  ⟨by decide,
    (c7_fenced_json_first_strategy "Here is my analysis.\n".data "\nDone.".data (by decide)).2⟩

/-! ## C9: round trip through the fenced rendering -/


/-! ## Round trip: characters and strings -/

theorem char_toNat_lt (c : Char) : c.toNat < 1114112 := by
  have h := c.valid
  have he : c.toNat = c.val.toNat := rfl
  rcases h with h | ⟨h1, h2⟩ <;> rw [he] <;> omega

theorem char_toNat_not_surrogate (c : Char) : ¬ (55296 ≤ c.toNat ∧ c.toNat ≤ 57343) := by
  have h := c.valid
  have he : c.toNat = c.val.toNat := rfl
  rcases h with h | ⟨h1, h2⟩ <;> rw [he] <;> omega

theorem hexVal_hexDigit {n : Nat} (h : n < 16) : hexVal (hexDigit n) = some n := by
  interval_cases n <;> rfl

theorem hex4Val_hex4 (n : Nat) (h : n < 65536) :
    hex4Val (hexDigit (n / 4096 % 16)) (hexDigit (n / 256 % 16))
      (hexDigit (n / 16 % 16)) (hexDigit (n % 16)) = some n := by
  rw [hex4Val, hexVal_hexDigit (Nat.mod_lt _ (by norm_num)),
    hexVal_hexDigit (Nat.mod_lt _ (by norm_num)),
    hexVal_hexDigit (Nat.mod_lt _ (by norm_num)),
    hexVal_hexDigit (Nat.mod_lt _ (by norm_num))]
  simp only [Option.bind_eq_bind, Option.some_bind, Option.some.injEq]
  omega

theorem psb_quote (fuel : Nat) (rest : List Char) :
    parseStringBody (fuel + 1) ('"' :: rest) = some ([], rest) := by
  rw [parseStringBody]
  rw [if_pos rfl]

theorem psb_backslash (fuel : Nat) (rest : List Char) :
    parseStringBody (fuel + 1) ('\\' :: rest) =
      (match parseEscape rest with
       | some (d, r) => consCh d (parseStringBody fuel r)
       | none => none) := by
  rw [parseStringBody]
  rw [if_neg (by decide : ¬ ('\\' = '"'))]
  rw [if_pos rfl]

theorem psb_backslash_some (fuel : Nat) (rest : List Char) (d : Char) (r : List Char)
    (h : parseEscape rest = some (d, r)) :
    parseStringBody (fuel + 1) ('\\' :: rest) = consCh d (parseStringBody fuel r) := by
  rw [psb_backslash, h]

theorem psb_plain (fuel : Nat) (c : Char) (rest : List Char) (h1 : ¬ c = '"')
    (h2 : ¬ c = '\\') (h3 : ¬ c.toNat < 32) :
    parseStringBody (fuel + 1) (c :: rest) = consCh c (parseStringBody fuel rest) := by
  rw [parseStringBody]
  rw [if_neg h1, if_neg h2, if_neg h3]

theorem parseEscape_quote (r : List Char) : parseEscape ('"' :: r) = some ('"', r) := by
  rw [parseEscape]
  rw [if_pos rfl]

theorem parseEscape_backslash (r : List Char) : parseEscape ('\\' :: r) = some ('\\', r) := by
  rw [parseEscape]
  rw [if_neg (by decide), if_pos rfl]

theorem parseEscape_b (r : List Char) : parseEscape ('b' :: r) = some ('\x08', r) := by
  rw [parseEscape]
  rw [if_neg (by decide), if_neg (by decide), if_neg (by decide), if_pos rfl]

theorem parseEscape_f (r : List Char) : parseEscape ('f' :: r) = some ('\x0c', r) := by
  rw [parseEscape]
  rw [if_neg (by decide), if_neg (by decide), if_neg (by decide), if_neg (by decide),
    if_pos rfl]

theorem parseEscape_n (r : List Char) : parseEscape ('n' :: r) = some ('\n', r) := by
  rw [parseEscape]
  rw [if_neg (by decide), if_neg (by decide), if_neg (by decide), if_neg (by decide),
    if_neg (by decide), if_pos rfl]

theorem parseEscape_r (r : List Char) : parseEscape ('r' :: r) = some ('\r', r) := by
  rw [parseEscape]
  rw [if_neg (by decide), if_neg (by decide), if_neg (by decide), if_neg (by decide),
    if_neg (by decide), if_neg (by decide), if_pos rfl]

theorem parseEscape_t (r : List Char) : parseEscape ('t' :: r) = some ('\t', r) := by
  rw [parseEscape]
  rw [if_neg (by decide), if_neg (by decide), if_neg (by decide), if_neg (by decide),
    if_neg (by decide), if_neg (by decide), if_neg (by decide), if_pos rfl]

theorem parseEscape_u (r : List Char) : parseEscape ('u' :: r) = parseUEscape r := by
  rw [parseEscape]
  rw [if_neg (by decide), if_neg (by decide), if_neg (by decide), if_neg (by decide),
    if_neg (by decide), if_neg (by decide), if_neg (by decide), if_neg (by decide),
    if_pos rfl]

theorem parseUEscape_bmp (n : Nat) (r : List Char) (hn : n < 65536)
    (hns : ¬ (55296 ≤ n ∧ n ≤ 57343)) :
    parseUEscape (hexDigit (n / 4096 % 16) :: hexDigit (n / 256 % 16) ::
      hexDigit (n / 16 % 16) :: hexDigit (n % 16) :: r) = some (Char.ofNat n, r) := by
  rw [parseUEscape]
  simp only [hex4Val_hex4 n hn]
  rw [if_neg (by omega), if_neg (by omega)]

theorem parseUEscape_astral (n m : Nat) (r : List Char)
    (hn : 55296 ≤ n ∧ n ≤ 56319) (hm : 56320 ≤ m ∧ m ≤ 57343) :
    parseUEscape (hexDigit (n / 4096 % 16) :: hexDigit (n / 256 % 16) ::
        hexDigit (n / 16 % 16) :: hexDigit (n % 16) ::
      ('\\' :: 'u' :: (hexDigit (m / 4096 % 16) :: hexDigit (m / 256 % 16) ::
        hexDigit (m / 16 % 16) :: hexDigit (m % 16) :: r))) =
      some (Char.ofNat (65536 + (n - 55296) * 1024 + (m - 56320)), r) := by
  rw [parseUEscape]
  simp only [hex4Val_hex4 n (by omega), hex4Val_hex4 m (by omega)]
  rw [if_pos hn]
  rw [if_pos hm]

theorem parseStringBody_escape : ∀ (s : List Char) (fuel : Nat) (rest : List Char),
    (escapeStr s).length < fuel →
    parseStringBody fuel (escapeStr s ++ ('"' :: rest)) = some (s, rest) := by
  intro s
  induction s with
  | nil =>
    intro fuel rest hf
    rcases fuel with _ | f
    · omega
    · rw [show escapeStr [] = [] from rfl, List.nil_append, psb_quote]
  | cons c s' ih =>
    intro fuel rest hf
    rw [escapeStr] at hf ⊢
    rw [List.append_assoc]
    rcases fuel with _ | f
    · simp at hf
    · rw [List.length_append] at hf
      by_cases h1 : c = '"'
      · subst h1
        rw [show escapeChar '"' = ['\\', '"'] from rfl] at hf ⊢
        simp only [List.cons_append, List.nil_append]
        rw [psb_backslash_some f _ _ _ (parseEscape_quote _)]
        rw [ih f rest (by simp at hf; omega)]
        rfl
      · by_cases h2 : c = '\\'
        · subst h2
          rw [show escapeChar '\\' = ['\\', '\\'] from rfl] at hf ⊢
          simp only [List.cons_append, List.nil_append]
          rw [psb_backslash_some f _ _ _ (parseEscape_backslash _)]
          rw [ih f rest (by simp at hf; omega)]
          rfl
        · by_cases h3 : c = '\n'
          · subst h3
            rw [show escapeChar '\n' = ['\\', 'n'] from rfl] at hf ⊢
            simp only [List.cons_append, List.nil_append]
            rw [psb_backslash_some f _ _ _ (parseEscape_n _)]
            rw [ih f rest (by simp at hf; omega)]
            rfl
          · by_cases h4 : c = '\r'
            · subst h4
              rw [show escapeChar '\r' = ['\\', 'r'] from rfl] at hf ⊢
              simp only [List.cons_append, List.nil_append]
              rw [psb_backslash_some f _ _ _ (parseEscape_r _)]
              rw [ih f rest (by simp at hf; omega)]
              rfl
            · by_cases h5 : c = '\t'
              · subst h5
                rw [show escapeChar '\t' = ['\\', 't'] from rfl] at hf ⊢
                simp only [List.cons_append, List.nil_append]
                rw [psb_backslash_some f _ _ _ (parseEscape_t _)]
                rw [ih f rest (by simp at hf; omega)]
                rfl
              · by_cases h6 : c = '\x08'
                · subst h6
                  rw [show escapeChar '\x08' = ['\\', 'b'] from rfl] at hf ⊢
                  simp only [List.cons_append, List.nil_append]
                  rw [psb_backslash_some f _ _ _ (parseEscape_b _)]
                  rw [ih f rest (by simp at hf; omega)]
                  rfl
                · by_cases h7 : c = '\x0c'
                  · subst h7
                    rw [show escapeChar '\x0c' = ['\\', 'f'] from rfl] at hf ⊢
                    simp only [List.cons_append, List.nil_append]
                    rw [psb_backslash_some f _ _ _ (parseEscape_f _)]
                    rw [ih f rest (by simp at hf; omega)]
                    rfl
                  · by_cases h8 : 32 ≤ c.toNat ∧ c.toNat ≤ 126
                    · have he : escapeChar c = [c] := by
                        rw [escapeChar]
                        rw [if_neg h1, if_neg h2, if_neg h3, if_neg h4, if_neg h5,
                          if_neg h6, if_neg h7, if_pos (by simpa using h8)]
                      rw [he] at hf ⊢
                      simp only [List.cons_append, List.nil_append]
                      rw [psb_plain f c _ h1 h2 (by omega)]
                      rw [ih f rest (by simp at hf; omega)]
                      rfl
                    · by_cases h9 : c.toNat < 65536
                      · have he : escapeChar c = '\\' :: 'u' :: hex4 c.toNat := by
                          rw [escapeChar]
                          rw [if_neg h1, if_neg h2, if_neg h3, if_neg h4, if_neg h5,
                            if_neg h6, if_neg h7, if_neg (by simpa using h8), if_pos h9]
                        rw [he, hex4] at hf ⊢
                        simp only [List.cons_append, List.nil_append]
                        rw [psb_backslash_some f _ _ _ ((parseEscape_u _).trans
                          (parseUEscape_bmp c.toNat _ h9 (char_toNat_not_surrogate c)))]
                        rw [Char.ofNat_toNat]
                        rw [ih f rest (by simp at hf; omega)]
                        rfl
                      · have hlt := char_toNat_lt c
                        have he : escapeChar c =
                            '\\' :: 'u' :: hex4 (55296 + (c.toNat - 65536) / 1024) ++
                              '\\' :: 'u' :: hex4 (56320 + (c.toNat - 65536) % 1024) := by
                          rw [escapeChar]
                          rw [if_neg h1, if_neg h2, if_neg h3, if_neg h4, if_neg h5,
                            if_neg h6, if_neg h7, if_neg (by simpa using h8), if_neg h9]
                        rw [he, hex4, hex4] at hf ⊢
                        have hdiv : (c.toNat - 65536) / 1024 < 1024 := by omega
                        have hmod := Nat.mod_lt (c.toNat - 65536) (show 0 < 1024 by norm_num)
                        simp only [List.cons_append, List.nil_append]
                        rw [psb_backslash_some f _ _ _ ((parseEscape_u _).trans
                          (parseUEscape_astral (55296 + (c.toNat - 65536) / 1024)
                            (56320 + (c.toNat - 65536) % 1024) _ (by omega) (by omega)))]
                        have hcomb : 65536 + (55296 + (c.toNat - 65536) / 1024 - 55296) * 1024 +
                            (56320 + (c.toNat - 65536) % 1024 - 56320) = c.toNat := by
                          have := Nat.div_add_mod (c.toNat - 65536) 1024
                          omega
                        rw [hcomb, Char.ofNat_toNat]
                        rw [ih f rest (by simp at hf; omega)]
                        rfl

/-! ## Round trip: numbers -/

theorem takeWhile_all_append (p : Char → Bool) :
    ∀ ds rest : List Char, (∀ c ∈ ds, p c = true) →
      (ds ++ rest).takeWhile p = ds ++ rest.takeWhile p := by
  intro ds
  induction ds with
  | nil => intro rest _; simp
  | cons d ds' ih =>
    intro rest h
    rw [List.cons_append, List.takeWhile_cons_of_pos (h d (List.mem_cons_self d ds')),
      ih rest (fun c hc => h c (List.mem_cons_of_mem d hc)), List.cons_append]

theorem takeWhile_digits_exact (ds rest : List Char)
    (h : ∀ c ∈ ds, c.isDigit = true)
    (h2 : rest.takeWhile Char.isDigit = []) :
    (ds ++ rest).takeWhile Char.isDigit = ds := by
  rw [takeWhile_all_append Char.isDigit ds rest h, h2, List.append_nil]

theorem tail_not_digit (f e rest : List Char) (hf : FracOK f) (he : ExpOK e)
    (hd : DelimRest rest) :
    (f ++ (e ++ rest)).takeWhile Char.isDigit = [] := by
  rcases hf with rfl | ⟨ds, rfl, hds⟩
  · rw [List.nil_append]
    rcases he with rfl | ⟨ec, sg, dse, rfl, hec, hsg, hdse⟩
    · rw [List.nil_append]
      rcases hd with rfl | ⟨c, r, rfl, hc⟩
      · exact List.takeWhile_nil
      · rcases hc with rfl | rfl | rfl <;> exact List.takeWhile_cons_of_neg (by decide)
    · rw [List.cons_append]
      rcases hec with rfl | rfl <;> exact List.takeWhile_cons_of_neg (by decide)
  · rw [List.cons_append]
    exact List.takeWhile_cons_of_neg (by decide)

theorem exp_rest_not_digit (e rest : List Char) (he : ExpOK e) (hd : DelimRest rest) :
    (e ++ rest).takeWhile Char.isDigit = [] := by
  have h := tail_not_digit [] e rest (Or.inl rfl) he hd
  rwa [List.nil_append] at h

theorem delim_not_digit (rest : List Char) (hd : DelimRest rest) :
    rest.takeWhile Char.isDigit = [] := by
  have h := tail_not_digit [] [] rest (Or.inl rfl) (Or.inl rfl) hd
  rwa [List.nil_append, List.nil_append] at h

theorem numExp_complete (e rest : List Char) (he : ExpOK e) (hd : DelimRest rest) :
    numExp (e ++ rest) = (e, rest) := by
  rcases he with rfl | ⟨ec, sg, ds, rfl, hec, hsg, hds⟩
  · rw [List.nil_append]
    rcases hd with rfl | ⟨c, r, rfl, hc⟩
    · rfl
    · simp only [numExp]
      rw [if_neg (by rcases hc with rfl | rfl | rfl <;> simp)]
  · rcases hsg with rfl | rfl | rfl
    · rcases hne : ds with _ | ⟨d0, ds'⟩
      · exact absurd hne hds.1
      · have hd0 : d0.isDigit = true := hds.2 d0 (hne ▸ List.mem_cons_self d0 ds')
        have hd0p : ¬ (d0 = '+') := fun h => by rw [h] at hd0; simp at hd0
        have hd0m : ¬ (d0 = '-') := fun h => by rw [h] at hd0; simp at hd0
        subst hne
        rw [List.nil_append, List.cons_append, List.cons_append]
        simp only [numExp]
        rw [if_pos hec, if_neg hd0p, if_neg hd0m]
        have ht := takeWhile_digits_exact (d0 :: ds') rest hds.2 (delim_not_digit rest hd)
        rw [List.cons_append] at ht
        have hdrop : List.drop (d0 :: ds').length (d0 :: (ds' ++ rest)) = rest := by
          rw [show d0 :: (ds' ++ rest) = (d0 :: ds') ++ rest from rfl]
          exact List.drop_left _ _
        simp [ht, hdrop]
    · rw [List.cons_append, List.singleton_append, List.cons_append]
      simp only [numExp]
      rw [if_pos hec]
      have ht := takeWhile_digits_exact ds rest hds.2 (delim_not_digit rest hd)
      have hdrop : List.drop ds.length (ds ++ rest) = rest := List.drop_left _ _
      simp [ht, hds.1, hdrop]
    · rw [List.cons_append, List.singleton_append, List.cons_append]
      simp only [numExp]
      rw [if_pos hec]
      have ht := takeWhile_digits_exact ds rest hds.2 (delim_not_digit rest hd)
      have hdrop : List.drop ds.length (ds ++ rest) = rest := List.drop_left _ _
      simp [ht, hds.1, hdrop]

theorem numFrac_complete (f e rest : List Char) (hf : FracOK f) (he : ExpOK e)
    (hd : DelimRest rest) :
    numFrac (f ++ (e ++ rest)) = (f, e ++ rest) := by
  rcases hf with rfl | ⟨ds, rfl, hds⟩
  · rw [List.nil_append]
    rcases hee : e ++ rest with _ | ⟨c, r⟩
    · rfl
    · simp only [numFrac]
      have hcnd : ¬ (c = '.') := by
        rcases he with rfl | ⟨ec, sg, dse, rfl, hec, hsg, hdse⟩
        · rw [List.nil_append] at hee
          rcases hd with rfl | ⟨c', r', rfl, hc⟩
          · exact absurd hee (by simp)
          · rw [List.cons_eq_cons] at hee
            rcases hc with rfl | rfl | rfl <;> rw [← hee.1] <;> decide
        · rw [List.cons_append, List.cons_eq_cons] at hee
          rcases hec with rfl | rfl <;> rw [← hee.1] <;> decide
      rw [if_neg hcnd]
  · rw [List.cons_append]
    simp only [numFrac]
    have ht := takeWhile_digits_exact ds (e ++ rest) hds.2 (exp_rest_not_digit e rest he hd)
    have hdrop : List.drop ds.length (ds ++ (e ++ rest)) = e ++ rest := List.drop_left _ _
    simp [ht, hds.1, hdrop]

theorem lexNumMain_complete (sign ip f e rest : List Char) (hip : IntPartOK ip)
    (hf : FracOK f) (he : ExpOK e) (hd : DelimRest rest) :
    lexNumMain sign (ip ++ (f ++ (e ++ rest))) = some (sign ++ ip ++ f ++ e, rest) := by
  rcases hip with rfl | ⟨c0, ds0, rfl, hdig, hnz, hds0⟩
  · rw [List.singleton_append, lexNumMain]
    rw [if_pos rfl]
    simp only [numFrac_complete f e rest hf he hd, numExp_complete e rest he hd]
    simp [List.append_assoc]
  · rw [List.cons_append, lexNumMain]
    rw [if_neg (by intro hc; rw [hc] at hnz; exact hnz rfl), if_pos hdig]
    have ht := takeWhile_digits_exact ds0 (f ++ (e ++ rest)) hds0
      (tail_not_digit f e rest hf he hd)
    simp only [ht, List.drop_left]
    simp only [numFrac_complete f e rest hf he hd, numExp_complete e rest he hd]

theorem lexNumber_complete (lex rest : List Char) (h : NumOK lex) (hd : DelimRest rest) :
    lexNumber (lex ++ rest) = some (lex, rest) := by
  obtain ⟨sign, ip, f, e, rfl, hsign, hip, hf, he⟩ := h
  rcases hsign with rfl | rfl
  · rw [List.nil_append]
    rcases hip with rfl | ⟨c0, ds0, rfl, hdig, hnz, hds0⟩
    · have hmain := lexNumMain_complete [] ['0'] f e rest (Or.inl rfl) hf he hd
      rw [List.nil_append] at hmain
      simp only [List.cons_append, List.nil_append, List.append_assoc] at hmain ⊢
      rw [lexNumber]
      rw [if_neg (by decide)]
      exact hmain
    · have hmain := lexNumMain_complete [] (c0 :: ds0) f e rest
        (Or.inr ⟨c0, ds0, rfl, hdig, hnz, hds0⟩) hf he hd
      rw [List.nil_append] at hmain
      simp only [List.cons_append, List.append_assoc] at hmain ⊢
      rw [lexNumber]
      rw [if_neg (fun hc => by rw [hc] at hdig; simp at hdig)]
      exact hmain
  · have hmain := lexNumMain_complete ['-'] ip f e rest hip hf he hd
    simp only [List.cons_append, List.nil_append, List.append_assoc] at hmain ⊢
    rw [lexNumber]
    rw [if_pos rfl]
    exact hmain

theorem dropWhile_ws_app (w s : List Char) (hw : ∀ c ∈ w, isJsonWs c = true) :
    (w ++ s).dropWhile isJsonWs = s.dropWhile isJsonWs := by
  induction w with
  | nil => rfl
  | cons c w' ih =>
    rw [List.cons_append, List.dropWhile_cons, if_pos (hw c (List.mem_cons_self c w'))]
    exact ih (fun d hd => hw d (List.mem_cons_of_mem c hd))

theorem ws_false_of_digit (c : Char) (h : c.isDigit = true) : isJsonWs c = false := by
  rw [Char.isDigit] at h
  simp only [isJsonWs, Bool.or_eq_false_iff, decide_eq_false_iff_not]
  refine ⟨⟨⟨?_, ?_⟩, ?_⟩, ?_⟩ <;> rintro rfl <;> simp at h

theorem parsesBack_null : ParsesBack .null := by
  refine ⟨1, by decide, ?_⟩
  intro w rest g hw _ hg
  obtain ⟨g', rfl⟩ : ∃ g', g = g' + 1 := ⟨g - 1, by omega⟩
  rw [parseStep, dropWhile_ws_app w _ hw]
  have hdw : (dumpsV .null ++ rest).dropWhile isJsonWs
      = 'n' :: ("ull".data ++ rest) := by
    rw [show dumpsV .null ++ rest = 'n' :: ("ull".data ++ rest) from rfl,
      List.dropWhile_cons, if_neg (by decide)]
  rw [hdw]
  simp [leadsWith, dumpsV]

theorem parsesBack_bool (b : Bool) : ParsesBack (.bool b) := by
  refine ⟨1, by cases b <;> decide, ?_⟩
  intro w rest g hw _ hg
  obtain ⟨g', rfl⟩ : ∃ g', g = g' + 1 := ⟨g - 1, by omega⟩
  cases b
  · rw [parseStep, dropWhile_ws_app w _ hw]
    have hdw : (dumpsV (.bool false) ++ rest).dropWhile isJsonWs
        = 'f' :: ("alse".data ++ rest) := by
      rw [show dumpsV (.bool false) ++ rest = 'f' :: ("alse".data ++ rest) from rfl,
        List.dropWhile_cons, if_neg (by decide)]
    rw [hdw]
    simp [leadsWith, dumpsV]
  · rw [parseStep, dropWhile_ws_app w _ hw]
    have hdw : (dumpsV (.bool true) ++ rest).dropWhile isJsonWs
        = 't' :: ("rue".data ++ rest) := by
      rw [show dumpsV (.bool true) ++ rest = 't' :: ("rue".data ++ rest) from rfl,
        List.dropWhile_cons, if_neg (by decide)]
    rw [hdw]
    simp [leadsWith, dumpsV]

theorem parsesBack_str (s : List Char) : ParsesBack (.str s) := by
  refine ⟨1, by simp [dumpsV], ?_⟩
  intro w rest g hw _ hg
  obtain ⟨g', rfl⟩ : ∃ g', g = g' + 1 := ⟨g - 1, by omega⟩
  rw [parseStep, dropWhile_ws_app w _ hw]
  have hshape : dumpsV (.str s) ++ rest = '"' :: (escapeStr s ++ ('"' :: rest)) := by
    simp [dumpsV, List.append_assoc]
  have hdw : (dumpsV (.str s) ++ rest).dropWhile isJsonWs
      = '"' :: (escapeStr s ++ ('"' :: rest)) := by
    rw [hshape, List.dropWhile_cons, if_neg (by decide)]
  rw [hdw]
  have hpsb : parseStringBody ((escapeStr s).length + (rest.length + 1) + 1)
      (escapeStr s ++ ('"' :: rest)) = some (s, rest) :=
    parseStringBody_escape s _ rest (by omega)
  simp [hpsb]

theorem parseStep_value_atomlex (g : Nat) (s lex rest : List Char) (c : Char) (t : List Char)
    (hs : s.dropWhile isJsonWs = c :: t)
    (h1 : c ≠ '\x7b') (h2 : c ≠ '[') (h3 : c ≠ '"')
    (h4 : 'n' ≠ c) (h5 : 't' ≠ c) (h6 : 'f' ≠ c)
    (hlex : lexNumber (c :: t) = some (lex, rest)) :
    parseStep (g + 1) .value s = some (.num lex, rest) := by
  rw [parseStep, hs]
  simp [h1, h2, h3, leadsWith, h4, h5, h6, hlex]

theorem parsesBack_num_regex (lex : List Char) (h : NumOK lex) : ParsesBack (.num lex) := by
  have hsh : ∃ c t, lex = c :: t ∧ (c = '-' ∨ c.isDigit = true) := by
    obtain ⟨sign, ip, f, e, rfl, hs, hip, hf, he⟩ := h
    rcases hs with rfl | rfl
    · rcases hip with rfl | ⟨c0, ds, rfl, hdig, _, _⟩
      · exact ⟨'0', f ++ e, by simp, Or.inr (by decide)⟩
      · exact ⟨c0, ds ++ f ++ e, by simp, Or.inr hdig⟩
    · exact ⟨'-', ip ++ f ++ e, by simp, Or.inl rfl⟩
  obtain ⟨c, t, rfl, hcd⟩ := hsh
  refine ⟨1, by simp [dumpsV], ?_⟩
  intro w rest g hw hdr hg
  obtain ⟨g', rfl⟩ : ∃ g', g = g' + 1 := ⟨g - 1, by omega⟩
  have hlex := lexNumber_complete (c :: t) rest h hdr
  rw [List.cons_append] at hlex
  have hws : isJsonWs c = false := by
    rcases hcd with rfl | hdig
    · decide
    · exact ws_false_of_digit c hdig
  refine parseStep_value_atomlex g' _ _ _ c (t ++ rest) ?_ ?_ ?_ ?_ ?_ ?_ ?_ hlex
  · rw [dropWhile_ws_app w _ hw,
      show dumpsV (.num (c :: t)) ++ rest = c :: (t ++ rest) from rfl,
      List.dropWhile_cons, if_neg (by simp [hws])]
  · rcases hcd with rfl | hdig
    · decide
    · rintro rfl; exact absurd hdig (by decide)
  · rcases hcd with rfl | hdig
    · decide
    · rintro rfl; exact absurd hdig (by decide)
  · rcases hcd with rfl | hdig
    · decide
    · rintro rfl; exact absurd hdig (by decide)
  · rcases hcd with rfl | hdig
    · decide
    · rintro rfl; exact absurd hdig (by decide)
  · rcases hcd with rfl | hdig
    · decide
    · rintro rfl; exact absurd hdig (by decide)
  · rcases hcd with rfl | hdig
    · decide
    · rintro rfl; exact absurd hdig (by decide)

theorem parsesBack_nan : ParsesBack (.num "NaN".data) := by
  refine ⟨1, by decide, ?_⟩
  intro w rest g hw _ hg
  obtain ⟨g', rfl⟩ : ∃ g', g = g' + 1 := ⟨g - 1, by omega⟩
  rw [parseStep, dropWhile_ws_app w _ hw]
  have hdw : (dumpsV (.num "NaN".data) ++ rest).dropWhile isJsonWs
      = 'N' :: ("aN".data ++ rest) := by
    rw [show dumpsV (.num "NaN".data) ++ rest = 'N' :: ("aN".data ++ rest) from rfl,
      List.dropWhile_cons, if_neg (by decide)]
  rw [hdw]
  have hlex : lexNumber ('N' :: 'a' :: 'N' :: rest) = none := by
    rw [lexNumber, if_neg (by decide), lexNumMain, if_neg (by decide), if_neg (by decide)]
  simp [leadsWith, hlex, dumpsV]

theorem parsesBack_inf : ParsesBack (.num "Infinity".data) := by
  refine ⟨1, by decide, ?_⟩
  intro w rest g hw _ hg
  obtain ⟨g', rfl⟩ : ∃ g', g = g' + 1 := ⟨g - 1, by omega⟩
  rw [parseStep, dropWhile_ws_app w _ hw]
  have hdw : (dumpsV (.num "Infinity".data) ++ rest).dropWhile isJsonWs
      = 'I' :: ("nfinity".data ++ rest) := by
    rw [show dumpsV (.num "Infinity".data) ++ rest = 'I' :: ("nfinity".data ++ rest) from rfl,
      List.dropWhile_cons, if_neg (by decide)]
  rw [hdw]
  have hlex : lexNumber ('I' :: 'n' :: 'f' :: 'i' :: 'n' :: 'i' :: 't' :: 'y' :: rest)
      = none := by
    rw [lexNumber, if_neg (by decide), lexNumMain, if_neg (by decide), if_neg (by decide)]
  simp [leadsWith, hlex, dumpsV]

theorem parsesBack_neginf : ParsesBack (.num "-Infinity".data) := by
  refine ⟨1, by decide, ?_⟩
  intro w rest g hw _ hg
  obtain ⟨g', rfl⟩ : ∃ g', g = g' + 1 := ⟨g - 1, by omega⟩
  rw [parseStep, dropWhile_ws_app w _ hw]
  have hdw : (dumpsV (.num "-Infinity".data) ++ rest).dropWhile isJsonWs
      = '-' :: ("Infinity".data ++ rest) := by
    rw [show dumpsV (.num "-Infinity".data) ++ rest = '-' :: ("Infinity".data ++ rest) from rfl,
      List.dropWhile_cons, if_neg (by decide)]
  rw [hdw]
  have hlex : lexNumber ('-' :: 'I' :: 'n' :: 'f' :: 'i' :: 'n' :: 'i' :: 't' :: 'y' :: rest)
      = none := by
    rw [lexNumber, if_pos rfl, lexNumMain, if_neg (by decide), if_neg (by decide)]
  simp [leadsWith, hlex, dumpsV]

theorem parsesBack_num (lex : List Char) (h : NumLexOK lex) : ParsesBack (.num lex) := by
  rcases h with h | rfl | rfl | rfl
  · exact parsesBack_num_regex lex h
  · exact parsesBack_nan
  · exact parsesBack_inf
  · exact parsesBack_neginf

theorem dumpsV_shape (v : JsonVal) (h : WF v) :
    ∃ c t, dumpsV v = c :: t ∧ isJsonWs c = false ∧ c ≠ ']' := by
  cases h with
  | null => exact ⟨'n', "ull".data, rfl, by decide, by decide⟩
  | bool b =>
    cases b
    · exact ⟨'f', "alse".data, rfl, by decide, by decide⟩
    · exact ⟨'t', "rue".data, rfl, by decide, by decide⟩
  | num lex hnum =>
    rcases hnum with hnum | rfl | rfl | rfl
    · obtain ⟨sign, ip, f, e, rfl, hs, hip, hf, he⟩ := hnum
      rcases hs with rfl | rfl
      · rcases hip with rfl | ⟨c0, ds, rfl, hdig, _, _⟩
        · exact ⟨'0', f ++ e, by simp [dumpsV], by decide, by decide⟩
        · refine ⟨c0, ds ++ f ++ e, by simp [dumpsV], ws_false_of_digit c0 hdig, ?_⟩
          rintro rfl; exact absurd hdig (by decide)
      · exact ⟨'-', ip ++ f ++ e, by simp [dumpsV], by decide, by decide⟩
    · exact ⟨'N', "aN".data, rfl, by decide, by decide⟩
    · exact ⟨'I', "nfinity".data, rfl, by decide, by decide⟩
    · exact ⟨'-', "Infinity".data, rfl, by decide, by decide⟩
  | str s => exact ⟨'"', escapeStr s ++ ['"'], by simp [dumpsV], by decide, by decide⟩
  | arr xs hxs =>
    cases xs with
    | nil => exact ⟨'[', [']'], rfl, by decide, by decide⟩
    | cons x xs' =>
      exact ⟨'[', (dumpsV x ++ dumpsElems xs') ++ [']'], by simp [dumpsV], by decide, by decide⟩
  | obj ms hvals hkeys =>
    cases ms with
    | nil => exact ⟨'\x7b', ['\x7d'], rfl, by decide, by decide⟩
    | cons kv ms' =>
      exact ⟨'\x7b', ('"' :: escapeStr kv.1 ++ '"' :: ':' :: ' ' :: dumpsV kv.2 ++
        dumpsMembers ms') ++ ['\x7d'], by simp [dumpsV], by decide, by decide⟩

theorem parseStep_arrTail (x : JsonVal) (xs : List JsonVal)
    (hall : ∀ y ∈ x :: xs, ParsesBack y) :
    ∃ f, f ≤ (dumpsV x ++ dumpsElems xs).length + 1 ∧
      ∀ w acc rest g, (∀ c ∈ w, isJsonWs c = true) → f ≤ g →
        parseStep g (.arrTail acc) (w ++ (dumpsV x ++ (dumpsElems xs ++ (']' :: rest)))) =
          some (.arr (acc ++ x :: xs), rest) := by
  induction xs generalizing x with
  | nil =>
    obtain ⟨fx, hfxb, hx⟩ := hall x (List.mem_cons_self x [])
    refine ⟨fx + 1, by simp; omega, ?_⟩
    intro w acc rest g hw hg
    obtain ⟨g', rfl⟩ : ∃ g', g = g' + 1 := ⟨g - 1, by omega⟩
    rw [parseStep]
    simp only [dumpsElems, List.nil_append]
    rw [hx w (']' :: rest) g' hw (Or.inr ⟨']', rest, rfl, Or.inr (Or.inl rfl)⟩) (by omega)]
    have hr1 : (']' :: rest).dropWhile isJsonWs = ']' :: rest := by
      rw [List.dropWhile_cons, if_neg (by decide)]
    simp [hr1]
  | cons y ys ih =>
    obtain ⟨fx, hfxb, hx⟩ := hall x (List.mem_cons_self x (y :: ys))
    obtain ⟨fr, hfrb, hr⟩ := ih y (fun z hz => hall z (List.mem_cons_of_mem x hz))
    refine ⟨max fx fr + 1, ?_, ?_⟩
    · simp only [dumpsElems, List.length_append, List.length_cons] at hfxb hfrb ⊢
      omega
    intro w acc rest g hw hg
    obtain ⟨g', rfl⟩ : ∃ g', g = g' + 1 := ⟨g - 1, by omega⟩
    rw [parseStep]
    have hdel : dumpsElems (y :: ys) ++ (']' :: rest) =
        ',' :: (' ' :: (dumpsV y ++ (dumpsElems ys ++ (']' :: rest)))) := by
      simp [dumpsElems, List.append_assoc]
    rw [hdel, hx w _ g' hw (Or.inr ⟨',', _, rfl, Or.inl rfl⟩) (by omega)]
    have hr1 : (',' :: (' ' :: (dumpsV y ++ (dumpsElems ys ++ (']' :: rest))))).dropWhile isJsonWs
        = ',' :: (' ' :: (dumpsV y ++ (dumpsElems ys ++ (']' :: rest)))) := by
      rw [List.dropWhile_cons, if_neg (by decide)]
    have hrec := hr [' '] (acc ++ [x]) rest g' (by decide) (by omega)
    rw [List.singleton_append] at hrec
    simp [hr1, hrec, List.append_assoc]

theorem objInsert_fresh (acc : List (List Char × JsonVal)) (k : List Char) (v : JsonVal)
    (h : objHasKey acc k = false) : objInsert acc k v = acc ++ [(k, v)] := by
  induction acc with
  | nil => rfl
  | cons kv acc' ih =>
    rw [objHasKey, List.any_cons] at h
    simp only [Bool.or_eq_false_iff, decide_eq_false_iff_not] at h
    rw [show (kv :: acc' : List (List Char × JsonVal)) = (kv.1, kv.2) :: acc' from by simp,
      objInsert, if_neg h.1, ih (by rw [objHasKey]; exact h.2)]
    simp

theorem objHasKey_append_single (acc : List (List Char × JsonVal)) (k k' : List Char)
    (v : JsonVal) (h1 : objHasKey acc k' = false) (h2 : k' ≠ k) :
    objHasKey (acc ++ [(k, v)]) k' = false := by
  rw [objHasKey] at h1 ⊢
  rw [List.any_append, h1]
  simp [Ne.symm h2]

theorem objTail_step (g : Nat) (acc : List (List Char × JsonVal)) (s k : List Char)
    (v : JsonVal) (tail r5 : List Char) (out : Option (JsonVal × List Char))
    (hs : s.dropWhile isJsonWs = '"' :: (escapeStr k ++ ('"' :: ':' :: ' ' :: tail)))
    (hv : parseStep g .value (' ' :: tail) = some (v, r5))
    (hout : (if (r5.dropWhile isJsonWs).head? = some ',' then
               parseStep g (.objTail (objInsert acc k v)) (r5.dropWhile isJsonWs).tail
             else if (r5.dropWhile isJsonWs).head? = some '\x7d' then
               some (.obj (objInsert acc k v), (r5.dropWhile isJsonWs).tail)
             else none) = out) :
    parseStep (g + 1) (.objTail acc) s = out := by
  rw [parseStep, hs]
  simp only []
  rw [parseStringBody_escape k ((escapeStr k ++ ('"' :: ':' :: ' ' :: tail)).length + 1)
    (':' :: ' ' :: tail) (by rw [List.length_append]; omega)]
  simp only []
  rw [show List.dropWhile isJsonWs (':' :: ' ' :: tail) = ':' :: ' ' :: tail from by
    rw [List.dropWhile_cons, if_neg (by decide)]]
  simp only [List.head?_cons, List.tail_cons]
  simp only [if_true]
  rw [hv]
  simp only []
  exact hout

theorem parseStep_objTail (k : List Char) (v : JsonVal) (ms : List (List Char × JsonVal))
    (hall : ∀ kv ∈ (k, v) :: ms, ParsesBack kv.2) :
    ∃ f, f ≤ (escapeStr k).length + (dumpsV v).length + (dumpsMembers ms).length + 5 ∧
      ∀ w acc rest g, (∀ c ∈ w, isJsonWs c = true) →
        (∀ k' ∈ k :: ms.map Prod.fst, objHasKey acc k' = false) →
        (k :: ms.map Prod.fst).Nodup → f ≤ g →
        parseStep g (.objTail acc)
            (w ++ ('"' :: (escapeStr k ++ ('"' :: ':' :: ' ' ::
              (dumpsV v ++ (dumpsMembers ms ++ ('\x7d' :: rest))))))) =
          some (.obj (acc ++ (k, v) :: ms), rest) := by
  induction ms generalizing k v with
  | nil =>
    obtain ⟨fv, hfvb, hv0⟩ := hall (k, v) (List.mem_cons_self _ _)
    have hfvb' : fv ≤ (dumpsV v).length := by simpa using hfvb
    refine ⟨fv + 1, by simp [dumpsMembers]; omega, ?_⟩
    intro w acc rest g hw hkeys hnd hg
    obtain ⟨g', rfl⟩ : ∃ g', g = g' + 1 := ⟨g - 1, by omega⟩
    simp only [dumpsMembers, List.nil_append]
    have hv := hv0 [' '] ('\x7d' :: rest) g' (by decide)
      (Or.inr ⟨'\x7d', rest, rfl, Or.inr (Or.inr rfl)⟩) (by omega)
    rw [List.singleton_append] at hv
    refine objTail_step g' acc _ k v (dumpsV v ++ ('\x7d' :: rest)) ('\x7d' :: rest) _ ?_ hv ?_
    · rw [dropWhile_ws_app w _ hw, List.dropWhile_cons, if_neg (by decide)]
    · rw [show List.dropWhile isJsonWs ('\x7d' :: rest) = '\x7d' :: rest from by
        rw [List.dropWhile_cons, if_neg (by decide)]]
      simp only [List.head?_cons, List.tail_cons]
      rw [if_neg (by decide)]
      simp only [if_true]
      rw [objInsert_fresh acc k v (hkeys k (List.mem_cons_self _ _))]
  | cons kv2 ms' ih =>
    obtain ⟨k2, v2⟩ := kv2
    obtain ⟨fv, hfvb, hv0⟩ := hall (k, v) (List.mem_cons_self _ _)
    have hfvb' : fv ≤ (dumpsV v).length := by simpa using hfvb
    obtain ⟨fr, hfrb, hr⟩ := ih k2 v2 (fun z hz => hall z (List.mem_cons_of_mem _ hz))
    refine ⟨max fv fr + 1, ?_, ?_⟩
    · simp only [dumpsMembers, List.length_cons, List.length_append]
      omega
    intro w acc rest g hw hkeys hnd hg
    obtain ⟨g', rfl⟩ : ∃ g', g = g' + 1 := ⟨g - 1, by omega⟩
    have hdm : dumpsMembers ((k2, v2) :: ms') ++ ('\x7d' :: rest) =
        ',' :: (' ' :: ('"' :: (escapeStr k2 ++ ('"' :: ':' :: ' ' ::
          (dumpsV v2 ++ (dumpsMembers ms' ++ ('\x7d' :: rest))))))) := by
      simp [dumpsMembers, List.append_assoc]
    rw [hdm]
    have hv := hv0 [' ']
      (',' :: (' ' :: ('"' :: (escapeStr k2 ++ ('"' :: ':' :: ' ' ::
        (dumpsV v2 ++ (dumpsMembers ms' ++ ('\x7d' :: rest)))))))) g' (by decide)
      (Or.inr ⟨',', _, rfl, Or.inl rfl⟩) (by omega)
    rw [List.singleton_append] at hv
    refine objTail_step g' acc _ k v
      (dumpsV v ++ (',' :: (' ' :: ('"' :: (escapeStr k2 ++ ('"' :: ':' :: ' ' ::
        (dumpsV v2 ++ (dumpsMembers ms' ++ ('\x7d' :: rest)))))))))
      (',' :: (' ' :: ('"' :: (escapeStr k2 ++ ('"' :: ':' :: ' ' ::
        (dumpsV v2 ++ (dumpsMembers ms' ++ ('\x7d' :: rest)))))))) _ ?_ hv ?_
    · rw [dropWhile_ws_app w _ hw, List.dropWhile_cons, if_neg (by decide)]
    · rw [show List.dropWhile isJsonWs (',' :: (' ' :: ('"' :: (escapeStr k2 ++
          ('"' :: ':' :: ' ' :: (dumpsV v2 ++ (dumpsMembers ms' ++ ('\x7d' :: rest))))))))
          = ',' :: (' ' :: ('"' :: (escapeStr k2 ++ ('"' :: ':' :: ' ' ::
            (dumpsV v2 ++ (dumpsMembers ms' ++ ('\x7d' :: rest))))))) from by
        rw [List.dropWhile_cons, if_neg (by decide)]]
      simp only [List.head?_cons, List.tail_cons]
      simp only [if_true]
      rw [objInsert_fresh acc k v (hkeys k (List.mem_cons_self _ _))]
      have hkeys' : ∀ k' ∈ k2 :: ms'.map Prod.fst, objHasKey (acc ++ [(k, v)]) k' = false := by
        intro k' hk'
        have hin : k' ∈ k :: ((k2, v2) :: ms').map Prod.fst := by
          simp only [List.map_cons]
          exact List.mem_cons_of_mem k hk'
        have hne : k' ≠ k := by
          rintro rfl
          rw [List.map_cons, List.nodup_cons] at hnd
          exact hnd.1 hk'
        exact objHasKey_append_single acc k k' v (hkeys k' hin) hne
      have hnd' : (k2 :: ms'.map Prod.fst).Nodup := by
        rw [List.map_cons, List.nodup_cons] at hnd
        exact hnd.2
      have hrec := hr [' '] (acc ++ [(k, v)]) rest g' (by decide) hkeys' hnd' (by omega)
      rw [List.singleton_append] at hrec
      rw [show acc ++ (k, v) :: (k2, v2) :: ms' = (acc ++ [(k, v)]) ++ (k2, v2) :: ms' from by
        simp]
      exact hrec

theorem value_step_arr (g : Nat) (s inner : List Char)
    (hs : s.dropWhile isJsonWs = '[' :: inner)
    (hr1 : inner.dropWhile isJsonWs = inner)
    (hhead : inner.head? ≠ some ']')
    (out : Option (JsonVal × List Char))
    (hout : parseStep g (.arrTail []) inner = out) :
    parseStep (g + 1) .value s = out := by
  rw [parseStep, hs]
  simp only []
  rw [hr1, if_neg hhead]
  exact hout

theorem value_step_obj (g : Nat) (s inner : List Char)
    (hs : s.dropWhile isJsonWs = '\x7b' :: inner)
    (hr1 : inner.dropWhile isJsonWs = inner)
    (hhead : inner.head? ≠ some '\x7d')
    (out : Option (JsonVal × List Char))
    (hout : parseStep g (.objTail []) inner = out) :
    parseStep (g + 1) .value s = out := by
  rw [parseStep, hs]
  simp only []
  rw [hr1, if_neg hhead]
  exact hout

theorem value_step_arr_nil (g : Nat) (s rest : List Char)
    (hs : s.dropWhile isJsonWs = '[' :: (']' :: rest)) :
    parseStep (g + 1) .value s = some (.arr [], rest) := by
  rw [parseStep, hs]
  simp only []
  rw [show List.dropWhile isJsonWs (']' :: rest) = ']' :: rest from by
    rw [List.dropWhile_cons, if_neg (by decide)]]
  simp only [List.head?_cons, List.tail_cons]
  simp only [if_true]
  rw [if_neg (by decide)]

theorem value_step_obj_nil (g : Nat) (s rest : List Char)
    (hs : s.dropWhile isJsonWs = '\x7b' :: ('\x7d' :: rest)) :
    parseStep (g + 1) .value s = some (.obj [], rest) := by
  rw [parseStep, hs]
  simp only []
  rw [show List.dropWhile isJsonWs ('\x7d' :: rest) = '\x7d' :: rest from by
    rw [List.dropWhile_cons, if_neg (by decide)]]
  simp only [List.head?_cons, List.tail_cons]
  simp only [if_true]

theorem parsesBack_of_WF_aux : ∀ (n : Nat) (v : JsonVal), sizeOf v ≤ n → WF v → ParsesBack v := by
  intro n
  induction n using Nat.strong_induction_on with
  | _ n ih =>
    intro v hsz hwf
    cases hwf with
    | null => exact parsesBack_null
    | bool b => exact parsesBack_bool b
    | num lex h => exact parsesBack_num lex h
    | str s => exact parsesBack_str s
    | arr xs hxs =>
      cases xs with
      | nil =>
        refine ⟨1, by decide, ?_⟩
        intro w rest g hw hdr hg
        obtain ⟨g', rfl⟩ : ∃ g', g = g' + 1 := ⟨g - 1, by omega⟩
        refine value_step_arr_nil g' _ rest ?_
        rw [dropWhile_ws_app w _ hw, show dumpsV (.arr []) ++ rest = '[' :: (']' :: rest) from rfl,
          List.dropWhile_cons, if_neg (by decide)]
      | cons x xs' =>
        have hall : ∀ y ∈ x :: xs', ParsesBack y := by
          intro y hy
          refine ih (sizeOf y) ?_ y le_rfl (hxs y hy)
          have h1 := List.sizeOf_lt_of_mem hy
          have h2 : sizeOf (JsonVal.arr (x :: xs')) = 1 + sizeOf (x :: xs') := by
            simp [JsonVal.arr.sizeOf_spec]
          omega
        obtain ⟨fA, hfAb, hA⟩ := parseStep_arrTail x xs' hall
        refine ⟨fA + 1, ?_, ?_⟩
        · simp only [dumpsV, List.length_append, List.length_cons] at hfAb ⊢
          omega
        intro w rest g hw hdr hg
        obtain ⟨g', rfl⟩ : ∃ g', g = g' + 1 := ⟨g - 1, by omega⟩
        obtain ⟨c, t, hcx, hwsx, hcne⟩ := dumpsV_shape x (hxs x (List.mem_cons_self _ _))
        have hsh : dumpsV (.arr (x :: xs')) ++ rest
            = '[' :: (dumpsV x ++ (dumpsElems xs' ++ (']' :: rest))) := by
          simp [dumpsV, List.append_assoc]
        have hr1 : (dumpsV x ++ (dumpsElems xs' ++ (']' :: rest))).dropWhile isJsonWs
            = dumpsV x ++ (dumpsElems xs' ++ (']' :: rest)) := by
          rw [hcx, List.cons_append, List.dropWhile_cons, if_neg (by simp [hwsx])]
        have hhead : (dumpsV x ++ (dumpsElems xs' ++ (']' :: rest))).head? ≠ some ']' := by
          rw [hcx]; simp [hcne]
        refine value_step_arr g' _ _ ?_ hr1 hhead _ ?_
        · rw [dropWhile_ws_app w _ hw, hsh, List.dropWhile_cons, if_neg (by decide)]
        · have hmain := hA [] [] rest g' (by simp) (by omega)
          rwa [List.nil_append, List.nil_append] at hmain
    | obj ms hvals hkeys =>
      cases ms with
      | nil =>
        refine ⟨1, by decide, ?_⟩
        intro w rest g hw hdr hg
        obtain ⟨g', rfl⟩ : ∃ g', g = g' + 1 := ⟨g - 1, by omega⟩
        refine value_step_obj_nil g' _ rest ?_
        rw [dropWhile_ws_app w _ hw,
          show dumpsV (.obj []) ++ rest = '\x7b' :: ('\x7d' :: rest) from rfl,
          List.dropWhile_cons, if_neg (by decide)]
      | cons kv ms' =>
        obtain ⟨k, v⟩ := kv
        have hall : ∀ kv2 ∈ (k, v) :: ms', ParsesBack kv2.2 := by
          intro kv2 hkv2
          refine ih (sizeOf kv2.2) ?_ kv2.2 le_rfl (hvals kv2 hkv2)
          have h1 := List.sizeOf_lt_of_mem hkv2
          have h2 : sizeOf (JsonVal.obj ((k, v) :: ms')) = 1 + sizeOf ((k, v) :: ms') := by
            simp [JsonVal.obj.sizeOf_spec]
          have h3 : sizeOf kv2.2 < sizeOf kv2 := by
            obtain ⟨a, b⟩ := kv2
            simp only [Prod.mk.sizeOf_spec]
            omega
          omega
        obtain ⟨fO, hfOb, hO⟩ := parseStep_objTail k v ms' hall
        refine ⟨fO + 1, ?_, ?_⟩
        · simp only [dumpsV, List.length_append, List.length_cons] at hfOb ⊢
          omega
        intro w rest g hw hdr hg
        obtain ⟨g', rfl⟩ : ∃ g', g = g' + 1 := ⟨g - 1, by omega⟩
        have hsh : dumpsV (.obj ((k, v) :: ms')) ++ rest
            = '\x7b' :: ('"' :: (escapeStr k ++ ('"' :: ':' :: ' ' ::
              (dumpsV v ++ (dumpsMembers ms' ++ ('\x7d' :: rest)))))) := by
          simp [dumpsV, List.append_assoc]
        refine value_step_obj g' _ ('"' :: (escapeStr k ++ ('"' :: ':' :: ' ' ::
          (dumpsV v ++ (dumpsMembers ms' ++ ('\x7d' :: rest)))))) ?_ ?_ ?_ _ ?_
        · rw [dropWhile_ws_app w _ hw, hsh, List.dropWhile_cons, if_neg (by decide)]
        · rw [List.dropWhile_cons, if_neg (by decide)]
        · simp
        · have hnd : (k :: ms'.map Prod.fst).Nodup := hkeys
          have hmain := hO [] [] rest g' (by simp) (fun k' _ => rfl) hnd (by omega)
          rwa [List.nil_append, List.nil_append] at hmain

theorem parsesBack_of_WF (v : JsonVal) (h : WF v) : ParsesBack v :=
  parsesBack_of_WF_aux (sizeOf v) v le_rfl h

theorem jsonLoads_dumpsV (v : JsonVal) (h : WF v) : jsonLoads (dumpsV v) = some v := by
  obtain ⟨f, hfb, hp⟩ := parsesBack_of_WF v h
  have hps := hp [] [] (2 * (dumpsV v).length + 2) (by simp) (Or.inl rfl) (by omega)
  rw [List.nil_append, List.append_nil] at hps
  rw [jsonLoads, hps]
  simp

theorem objInsert_keys_sub (acc : List (List Char × JsonVal)) (k k'' : List Char) (v : JsonVal)
    (h : k'' ∈ (objInsert acc k v).map Prod.fst) : k'' ∈ acc.map Prod.fst ∨ k'' = k := by
  induction acc with
  | nil =>
    simp [objInsert] at h
    exact Or.inr h
  | cons kv acc' ih =>
    rw [show (kv :: acc' : List (List Char × JsonVal)) = (kv.1, kv.2) :: acc' from by simp,
      objInsert] at h
    by_cases hk : kv.1 = k
    · rw [if_pos hk] at h
      exact Or.inl (by simpa using h)
    · rw [if_neg hk] at h
      simp at h
      rcases h with h | h
      · exact Or.inl (by simp [h])
      · have h' : k'' ∈ (objInsert acc' k v).map Prod.fst := by
          obtain ⟨x, hx⟩ := h
          exact List.mem_map_of_mem Prod.fst hx
        rcases ih h' with h2 | h2
        · refine Or.inl ?_
          simp only [List.map_cons]
          exact List.mem_cons_of_mem _ h2
        · exact Or.inr h2

theorem objInsert_nodup (acc : List (List Char × JsonVal)) (k : List Char) (v : JsonVal)
    (h : (acc.map Prod.fst).Nodup) : ((objInsert acc k v).map Prod.fst).Nodup := by
  induction acc with
  | nil => simp [objInsert]
  | cons kv acc' ih =>
    rw [show (kv :: acc' : List (List Char × JsonVal)) = (kv.1, kv.2) :: acc' from by simp,
      objInsert]
    rw [List.map_cons, List.nodup_cons] at h
    by_cases hk : kv.1 = k
    · rw [if_pos hk]
      rw [List.map_cons, List.nodup_cons]
      exact ⟨h.1, h.2⟩
    · rw [if_neg hk]
      rw [List.map_cons, List.nodup_cons]
      refine ⟨?_, ih h.2⟩
      intro hmem
      rcases objInsert_keys_sub acc' k kv.1 v hmem with h' | h'
      · exact h.1 h'
      · exact hk h'

theorem objInsert_vals (acc : List (List Char × JsonVal)) (k : List Char) (v : JsonVal)
    (hacc : ∀ kv ∈ acc, WF kv.2) (hv : WF v) : ∀ kv ∈ objInsert acc k v, WF kv.2 := by
  induction acc with
  | nil =>
    intro kv hkv
    simp [objInsert] at hkv
    rw [hkv]
    exact hv
  | cons kv0 acc' ih =>
    rw [show (kv0 :: acc' : List (List Char × JsonVal)) = (kv0.1, kv0.2) :: acc' from by simp,
      objInsert]
    by_cases hk : kv0.1 = k
    · rw [if_pos hk]
      intro kv hkv
      rcases List.mem_cons.mp hkv with h | h
      · rw [h]
        exact hv
      · exact hacc kv (List.mem_cons_of_mem _ h)
    · rw [if_neg hk]
      intro kv hkv
      rcases List.mem_cons.mp hkv with h | h
      · rw [h]
        exact hacc (kv0.1, kv0.2) (by simp)
      · exact ih (fun z hz => hacc z (List.mem_cons_of_mem _ hz)) kv h

theorem objHasKey_objInsert_self (ms : List (List Char × JsonVal)) (k : List Char) (v : JsonVal) :
    objHasKey (objInsert ms k v) k = true := by
  induction ms with
  | nil => simp [objInsert, objHasKey]
  | cons kv ms' ih =>
    rw [show (kv :: ms' : List (List Char × JsonVal)) = (kv.1, kv.2) :: ms' from by simp,
      objInsert]
    by_cases hk : kv.1 = k
    · rw [if_pos hk]
      simp [objHasKey, hk]
    · rw [if_neg hk]
      rw [objHasKey, List.any_cons]
      rw [objHasKey] at ih
      simp [ih]

theorem objHasKey_objInsert_mono (ms : List (List Char × JsonVal)) (k k' : List Char)
    (v : JsonVal) (h : objHasKey ms k' = true) :
    objHasKey (objInsert ms k v) k' = true := by
  induction ms with
  | nil => simp [objHasKey] at h
  | cons kv ms' ih =>
    rw [show (kv :: ms' : List (List Char × JsonVal)) = (kv.1, kv.2) :: ms' from by simp,
      objInsert]
    rw [objHasKey, List.any_cons] at h
    by_cases hk : kv.1 = k
    · rw [if_pos hk]
      rw [objHasKey, List.any_cons]
      rcases Bool.or_eq_true_iff.mp h with h' | h'
      · simp at h'
        simp [h']
      · simp [h']
    · rw [if_neg hk]
      rw [objHasKey, List.any_cons]
      rcases Bool.or_eq_true_iff.mp h with h' | h'
      · simp at h'
        simp [h']
      · rw [objHasKey] at ih
        have h2 := ih h'
        rw [objHasKey, List.any_eq_true] at h2
        obtain ⟨kv2, hkv2, he⟩ := h2
        simp at he
        simp only [List.any_cons, Bool.or_eq_true, List.any_eq_true]
        right
        exact ⟨kv2, hkv2, by simp [he]⟩

theorem numFrac_shape (s : List Char) : FracOK (numFrac s).1 := by
  rcases s with _ | ⟨c, r⟩
  · exact Or.inl rfl
  · rw [numFrac]
    by_cases hc : c = '.'
    · rw [if_pos hc]
      simp only []
      by_cases hds : r.takeWhile Char.isDigit = []
      · rw [if_pos hds]
        exact Or.inl rfl
      · rw [if_neg hds]
        exact Or.inr ⟨r.takeWhile Char.isDigit, rfl, hds,
          fun c hc => List.mem_takeWhile_imp hc⟩
    · rw [if_neg hc]
      exact Or.inl rfl

theorem expok_branch (e : Char) (he : e = 'e' ∨ e = 'E') (sg r2 orig : List Char)
    (hsg : sg = [] ∨ sg = ['+'] ∨ sg = ['-']) :
    ExpOK (if r2.takeWhile Char.isDigit = [] then (([] : List Char), orig)
           else (e :: sg ++ r2.takeWhile Char.isDigit,
                 r2.drop (r2.takeWhile Char.isDigit).length)).1 := by
  by_cases hds : r2.takeWhile Char.isDigit = []
  · rw [if_pos hds]
    exact Or.inl rfl
  · rw [if_neg hds]
    exact Or.inr ⟨e, sg, r2.takeWhile Char.isDigit, rfl, he, hsg,
      hds, fun c hc => List.mem_takeWhile_imp hc⟩

theorem numExp_shape (s : List Char) : ExpOK (numExp s).1 := by
  rcases s with _ | ⟨e, rest⟩
  · exact Or.inl rfl
  by_cases he : e = 'e' ∨ e = 'E'
  · rcases rest with _ | ⟨c2, r2⟩
    · rw [numExp, if_pos he]
      simp only []
      exact expok_branch e he [] [] _ (Or.inl rfl)
    · by_cases hp : c2 = '+'
      · subst hp
        rw [numExp, if_pos he]
        simp only []
        exact expok_branch e he ['+'] r2 _ (Or.inr (Or.inl rfl))
      · by_cases hm : c2 = '-'
        · subst hm
          rw [numExp, if_pos he]
          simp only []
          exact expok_branch e he ['-'] r2 _ (Or.inr (Or.inr rfl))
        · rw [numExp, if_pos he]
          simp only []
          rw [if_neg hp, if_neg hm]
          exact expok_branch e he [] (c2 :: r2) _ (Or.inl rfl)
  · rw [numExp.eq_def]
    simp only []
    rw [if_neg he]
    exact Or.inl rfl

theorem lexNumMain_shape (sign s lex rest : List Char) (hsign : sign = [] ∨ sign = ['-'])
    (h : lexNumMain sign s = some (lex, rest)) : NumOK lex := by
  rcases s with _ | ⟨c, r⟩
  · simp [lexNumMain] at h
  · rw [lexNumMain] at h
    by_cases h0 : c = '0'
    · rw [if_pos h0] at h
      simp only [Option.some.injEq, Prod.mk.injEq] at h
      obtain ⟨hlex, -⟩ := h
      exact ⟨sign, ['0'], (numFrac r).1, (numExp (numFrac r).2).1,
        by rw [← hlex]; simp, hsign, Or.inl rfl, numFrac_shape r, numExp_shape _⟩
    · by_cases hd : c.isDigit
      · rw [if_neg h0, if_pos hd] at h
        simp only [Option.some.injEq, Prod.mk.injEq] at h
        obtain ⟨hlex, -⟩ := h
        refine ⟨sign, c :: r.takeWhile Char.isDigit,
          (numFrac (r.drop (r.takeWhile Char.isDigit).length)).1,
          (numExp (numFrac (r.drop (r.takeWhile Char.isDigit).length)).2).1,
          by rw [← hlex], hsign,
          Or.inr ⟨c, r.takeWhile Char.isDigit, rfl, hd, h0,
            fun d hdm => List.mem_takeWhile_imp hdm⟩,
          numFrac_shape _, numExp_shape _⟩
      · rw [if_neg h0, if_neg hd] at h
        exact Option.noConfusion h

theorem lexNumber_shape (s lex rest : List Char) (h : lexNumber s = some (lex, rest)) :
    NumOK lex := by
  rcases s with _ | ⟨c, r⟩
  · simp [lexNumber] at h
  · rw [lexNumber] at h
    by_cases hm : c = '-'
    · rw [if_pos hm] at h
      exact lexNumMain_shape ['-'] r lex rest (Or.inr rfl) h
    · rw [if_neg hm] at h
      exact lexNumMain_shape [] (c :: r) lex rest (Or.inl rfl) h

theorem parseStep_WF : ∀ (fuel : Nat) (mode : PMode) (s : List Char) (v : JsonVal)
    (rest : List Char), parseStep fuel mode s = some (v, rest) →
    (match mode with
     | .value => WF v
     | .arrTail acc => (∀ x ∈ acc, WF x) → WF v
     | .objTail acc => (∀ kv ∈ acc, WF kv.2) → (acc.map Prod.fst).Nodup → WF v) := by
  intro fuel
  induction fuel with
  | zero =>
    intro mode s v rest h
    rw [parseStep] at h
    exact Option.noConfusion h
  | succ fuel ih =>
    intro mode s v rest h
    cases mode with
    | value =>
      rw [parseStep] at h
      split at h
      · exact Option.noConfusion h
      · split at h
        · simp only [] at h
          split at h
          · simp only [Option.some.injEq, Prod.mk.injEq] at h
            rw [← h.1]
            exact WF.obj [] (by simp) (by simp)
          · exact ih _ _ _ _ h (by simp) (by simp)
        · split at h
          · simp only [] at h
            split at h
            · simp only [Option.some.injEq, Prod.mk.injEq] at h
              rw [← h.1]
              exact WF.arr [] (by simp)
            · exact ih _ _ _ _ h (by simp)
          · split at h
            · split at h
              · simp only [Option.some.injEq, Prod.mk.injEq] at h
                rw [← h.1]
                exact WF.str _
              · exact Option.noConfusion h
            · split at h
              · simp only [Option.some.injEq, Prod.mk.injEq] at h
                rw [← h.1]
                exact WF.null
              · split at h
                · simp only [Option.some.injEq, Prod.mk.injEq] at h
                  rw [← h.1]
                  exact WF.bool true
                · split at h
                  · simp only [Option.some.injEq, Prod.mk.injEq] at h
                    rw [← h.1]
                    exact WF.bool false
                  · split at h
                    · rename_i lex r2 hlex
                      simp only [Option.some.injEq, Prod.mk.injEq] at h
                      rw [← h.1]
                      exact WF.num lex (Or.inl (lexNumber_shape _ lex r2 hlex))
                    · split at h
                      · simp only [Option.some.injEq, Prod.mk.injEq] at h
                        rw [← h.1]
                        exact WF.num _ (Or.inr (Or.inl rfl))
                      · split at h
                        · simp only [Option.some.injEq, Prod.mk.injEq] at h
                          rw [← h.1]
                          exact WF.num _ (Or.inr (Or.inr (Or.inl rfl)))
                        · split at h
                          · simp only [Option.some.injEq, Prod.mk.injEq] at h
                            rw [← h.1]
                            exact WF.num _ (Or.inr (Or.inr (Or.inr rfl)))
                          · exact Option.noConfusion h
    | arrTail acc =>
      intro hacc
      rw [parseStep] at h
      split at h
      · exact Option.noConfusion h
      · rename_i x r hx
        simp only [] at h
        have hxWF : WF x := ih .value s x r hx
        split at h
        · refine ih (.arrTail (acc ++ [x])) _ v rest h ?_
          intro z hz
          rcases List.mem_append.mp hz with hz | hz
          · exact hacc z hz
          · simp at hz
            rw [hz]
            exact hxWF
        · split at h
          · simp only [Option.some.injEq, Prod.mk.injEq] at h
            rw [← h.1]
            refine WF.arr _ ?_
            intro z hz
            rcases List.mem_append.mp hz with hz | hz
            · exact hacc z hz
            · simp at hz
              rw [hz]
              exact hxWF
          · exact Option.noConfusion h
    | objTail acc =>
      intro hacc hnd
      rw [parseStep] at h
      split at h
      · exact Option.noConfusion h
      · split at h
        · split at h
          · exact Option.noConfusion h
          · rename_i k r1 hk
            simp only [] at h
            split at h
            · split at h
              · exact Option.noConfusion h
              · rename_i x r4 hx
                have hxWF : WF x := ih .value _ x r4 hx
                split at h
                · exact ih (.objTail (objInsert acc k x)) _ v rest h
                    (objInsert_vals acc k x hacc hxWF) (objInsert_nodup acc k x hnd)
                · split at h
                  · simp only [Option.some.injEq, Prod.mk.injEq] at h
                    rw [← h.1]
                    exact WF.obj _ (objInsert_vals acc k x hacc hxWF)
                      (objInsert_nodup acc k x hnd)
                  · exact Option.noConfusion h
            · exact Option.noConfusion h
        · exact Option.noConfusion h

theorem jsonLoads_WF (s : List Char) (v : JsonVal) (h : jsonLoads s = some v) : WF v := by
  rw [jsonLoads] at h
  split at h
  · rename_i x r hx
    split at h
    · simp only [Option.some.injEq] at h
      rw [← h]
      exact parseStep_WF (2 * s.length + 2) .value s x r hx
    · exact Option.noConfusion h
  · exact Option.noConfusion h

theorem ebind_ok {α β : Type} (a : α) (f : α → Except PyError β) :
    ((Except.ok a : Except PyError α) >>= f) = f a := rfl

theorem ensureKeys_obj_eval (ms0 : List (List Char × JsonVal)) :
    ensureKeys (.obj ms0) =
      .ok (.obj (if objHasKey (if objHasKey ms0 "issues".data then ms0
                    else objInsert ms0 "issues".data (.arr [])) "summary".data then
                   (if objHasKey ms0 "issues".data then ms0
                    else objInsert ms0 "issues".data (.arr []))
                 else objInsert (if objHasKey ms0 "issues".data then ms0
                    else objInsert ms0 "issues".data (.arr [])) "summary".data (.str []))) := by
  rw [ensureKeys]
  rw [show pyContains (.obj ms0) "issues".data
      = (Except.ok (objHasKey ms0 "issues".data) : Except PyError Bool) from rfl]
  rw [ebind_ok]
  cases hI : objHasKey ms0 "issues".data
  · simp only [Bool.false_eq_true, if_false]
    rw [show pySetItem (.obj ms0) "issues".data (.arr [])
        = (Except.ok (.obj (objInsert ms0 "issues".data (.arr []))) :
            Except PyError JsonVal) from rfl]
    rw [ebind_ok]
    rw [show pyContains (.obj (objInsert ms0 "issues".data (.arr []))) "summary".data
        = (Except.ok (objHasKey (objInsert ms0 "issues".data (.arr [])) "summary".data) :
            Except PyError Bool) from rfl]
    rw [ebind_ok]
    cases hS : objHasKey (objInsert ms0 "issues".data (.arr [])) "summary".data
    · simp only [Bool.false_eq_true, if_false]
      rfl
    · rw [if_pos rfl]
      rfl
  · rw [if_pos rfl]
    rw [show (pure (.obj ms0) : Except PyError JsonVal) = Except.ok (.obj ms0) from rfl]
    rw [ebind_ok]
    simp only []
    rw [show pyContains (.obj ms0) "summary".data
        = (Except.ok (objHasKey ms0 "summary".data) : Except PyError Bool) from rfl]
    rw [ebind_ok]
    simp only [eq_self_iff_true, if_true]
    cases hS : objHasKey ms0 "summary".data
    · simp only [Bool.false_eq_true, if_false]
      rfl
    · simp only [eq_self_iff_true, if_true]
      rfl

theorem ensureKeys_obj_shape (ms0 ms : List (List Char × JsonVal))
    (h : ensureKeys (.obj ms0) = .ok (.obj ms))
    (hvals : ∀ kv ∈ ms0, WF kv.2) (hnd : (ms0.map Prod.fst).Nodup) :
    (∀ kv ∈ ms, WF kv.2) ∧ (ms.map Prod.fst).Nodup ∧
      objHasKey ms "issues".data = true ∧ objHasKey ms "summary".data = true := by
  rw [ensureKeys_obj_eval ms0] at h
  simp only [Except.ok.injEq, JsonVal.obj.injEq] at h
  rw [← h]
  have hms1vals : ∀ kv ∈ (if objHasKey ms0 "issues".data then ms0
      else objInsert ms0 "issues".data (.arr [])), WF kv.2 := by
    by_cases hI : objHasKey ms0 "issues".data = true
    · rw [if_pos hI]; exact hvals
    · rw [if_neg hI]; exact objInsert_vals _ _ _ hvals (WF.arr [] (by simp))
  have hms1nd : ((if objHasKey ms0 "issues".data then ms0
      else objInsert ms0 "issues".data (.arr [])).map Prod.fst).Nodup := by
    by_cases hI : objHasKey ms0 "issues".data = true
    · rw [if_pos hI]; exact hnd
    · rw [if_neg hI]; exact objInsert_nodup _ _ _ hnd
  have hms1issues : objHasKey (if objHasKey ms0 "issues".data then ms0
      else objInsert ms0 "issues".data (.arr [])) "issues".data = true := by
    by_cases hI : objHasKey ms0 "issues".data = true
    · rw [if_pos hI]; exact hI
    · rw [if_neg hI]; exact objHasKey_objInsert_self _ _ _
  by_cases hS : objHasKey (if objHasKey ms0 "issues".data then ms0
      else objInsert ms0 "issues".data (.arr [])) "summary".data = true
  · rw [if_pos hS]
    exact ⟨hms1vals, hms1nd, hms1issues, hS⟩
  · rw [if_neg hS]
    exact ⟨objInsert_vals _ _ _ hms1vals (WF.str []),
      objInsert_nodup _ _ _ hms1nd,
      objHasKey_objInsert_mono _ _ _ _ hms1issues,
      objHasKey_objInsert_self _ _ _⟩

theorem ensureKeys_ok_nonobj (r v : JsonVal) (h : ensureKeys r = .ok v)
    (hno : ∀ ms0, r ≠ .obj ms0) : v = r := by
  cases r with
  | obj ms0 => exact absurd rfl (hno ms0)
  | null => exact Except.noConfusion h
  | bool b => exact Except.noConfusion h
  | num l => exact Except.noConfusion h
  | str s =>
    rw [ensureKeys] at h
    rw [show pyContains (.str s) "issues".data
        = (Except.ok (hasSub "issues".data s) : Except PyError Bool) from rfl, ebind_ok] at h
    cases hI : hasSub "issues".data s
    · rw [hI] at h
      simp only [Bool.false_eq_true, if_false] at h
      exact Except.noConfusion h
    · rw [hI] at h
      rw [if_pos rfl] at h
      rw [show (pure (.str s) : Except PyError JsonVal) = Except.ok (.str s) from rfl,
        ebind_ok] at h
      simp only [] at h
      rw [show pyContains (.str s) "summary".data
          = (Except.ok (hasSub "summary".data s) : Except PyError Bool) from rfl, ebind_ok] at h
      cases hS : hasSub "summary".data s
      · rw [hS] at h
        simp only [Bool.false_eq_true, if_false] at h
        exact Except.noConfusion h
      · rw [hS] at h
        rw [if_pos rfl] at h
        have h' : Except.ok (JsonVal.str s) = Except.ok v := h
        exact (Except.ok.inj h').symm
  | arr xs =>
    rw [ensureKeys] at h
    rw [show pyContains (.arr xs) "issues".data
        = (Except.ok (xs.contains (.str "issues".data)) : Except PyError Bool) from rfl,
      ebind_ok] at h
    cases hI : xs.contains (.str "issues".data)
    · rw [hI] at h
      simp only [Bool.false_eq_true, if_false] at h
      exact Except.noConfusion h
    · rw [hI] at h
      rw [if_pos rfl] at h
      rw [show (pure (.arr xs) : Except PyError JsonVal) = Except.ok (.arr xs) from rfl,
        ebind_ok] at h
      simp only [] at h
      rw [show pyContains (.arr xs) "summary".data
          = (Except.ok (xs.contains (.str "summary".data)) : Except PyError Bool) from rfl,
        ebind_ok] at h
      cases hS : xs.contains (.str "summary".data)
      · rw [hS] at h
        simp only [Bool.false_eq_true, if_false] at h
        exact Except.noConfusion h
      · rw [hS] at h
        rw [if_pos rfl] at h
        have h' : Except.ok (JsonVal.arr xs) = Except.ok v := h
        exact (Except.ok.inj h').symm

theorem canned_shape (t e : List Char) :
    (∀ kv ∈ [("error".data, JsonVal.str e),
        ("raw_response".data, JsonVal.str (truncate500 t)),
        ("issues".data, JsonVal.arr []), ("summary".data, JsonVal.str [])], WF kv.2) ∧
    (([("error".data, JsonVal.str e),
        ("raw_response".data, JsonVal.str (truncate500 t)),
        ("issues".data, JsonVal.arr []),
        ("summary".data, JsonVal.str [])].map Prod.fst).Nodup) ∧
    objHasKey [("error".data, JsonVal.str e),
        ("raw_response".data, JsonVal.str (truncate500 t)),
        ("issues".data, JsonVal.arr []),
        ("summary".data, JsonVal.str [])] "issues".data = true ∧
    objHasKey [("error".data, JsonVal.str e),
        ("raw_response".data, JsonVal.str (truncate500 t)),
        ("issues".data, JsonVal.arr []),
        ("summary".data, JsonVal.str [])] "summary".data = true := by
  refine ⟨?_, ?_, rfl, rfl⟩
  · intro kv hkv
    simp at hkv
    rcases hkv with rfl | rfl | rfl | rfl
    · exact WF.str _
    · exact WF.str _
    · exact WF.arr [] (by simp)
    · exact WF.str _
  · rw [show (List.map Prod.fst [("error".data, JsonVal.str e),
        ("raw_response".data, JsonVal.str (truncate500 t)),
        ("issues".data, JsonVal.arr []), ("summary".data, JsonVal.str [])])
      = ["error".data, "raw_response".data, "issues".data, "summary".data] from rfl]
    decide

theorem spr_ok_obj_shape (t : List Char) (ms : List (List Char × JsonVal))
    (h : _parse_structured_response t = .ok (.obj ms)) :
    (∀ kv ∈ ms, WF kv.2) ∧ (ms.map Prod.fst).Nodup ∧
      objHasKey ms "issues".data = true ∧ objHasKey ms "summary".data = true := by
  rw [_parse_structured_response] at h
  split at h
  · simp only [emptyResponseObj, Except.ok.injEq, JsonVal.obj.injEq] at h
    rw [← h]
    refine ⟨?_, by decide, rfl, rfl⟩
    intro kv hkv
    simp at hkv
    rcases hkv with rfl | rfl | rfl
    · exact WF.str _
    · exact WF.arr [] (by simp)
    · exact WF.str _
  · split at h
    · split at h
      · simp only [noJsonObj, Except.ok.injEq, JsonVal.obj.injEq] at h
        rw [← h]
        exact canned_shape t _
      · split at h
        · rename_i result hloads
          cases result with
          | obj ms0 =>
            have hWF := jsonLoads_WF _ _ hloads
            cases hWF with
            | obj _ hv hnd => exact ensureKeys_obj_shape ms0 ms h hv hnd
          | null =>
            have := ensureKeys_ok_nonobj _ _ h (fun ms0 hc => JsonVal.noConfusion hc)
            exact JsonVal.noConfusion this
          | bool b =>
            have := ensureKeys_ok_nonobj _ _ h (fun ms0 hc => JsonVal.noConfusion hc)
            exact JsonVal.noConfusion this
          | num l =>
            have := ensureKeys_ok_nonobj _ _ h (fun ms0 hc => JsonVal.noConfusion hc)
            exact JsonVal.noConfusion this
          | str s =>
            have := ensureKeys_ok_nonobj _ _ h (fun ms0 hc => JsonVal.noConfusion hc)
            exact JsonVal.noConfusion this
          | arr xs =>
            have := ensureKeys_ok_nonobj _ _ h (fun ms0 hc => JsonVal.noConfusion hc)
            exact JsonVal.noConfusion this
        · simp only [parseFailObj, Except.ok.injEq, JsonVal.obj.injEq] at h
          rw [← h]
          exact canned_shape t _
    · simp only [noJsonObj, Except.ok.injEq, JsonVal.obj.injEq] at h
      rw [← h]
      exact canned_shape t _

theorem dumpsObj_cons_shape (ms : List (List Char × JsonVal)) :
    ∃ t, dumpsV (.obj ms) = '\x7b' :: (t ++ ['\x7d']) := by
  cases ms with
  | nil => exact ⟨[], rfl⟩
  | cons kv ms' =>
    obtain ⟨k, v⟩ := kv
    exact ⟨'"' :: escapeStr k ++ '"' :: ':' :: ' ' :: dumpsV v ++ dumpsMembers ms', rfl⟩

theorem pyStrip_dumpsObj (ms : List (List Char × JsonVal)) :
    pyStrip (dumpsV (.obj ms)) = dumpsV (.obj ms) := by
  obtain ⟨t, ht⟩ := dumpsObj_cons_shape ms
  rw [ht, pyStrip]
  rw [show List.dropWhile isPySpace ('\x7b' :: (t ++ ['\x7d'])) = '\x7b' :: (t ++ ['\x7d'])
    from by rw [List.dropWhile_cons, if_neg (by decide)]]
  rw [show ('\x7b' :: (t ++ ['\x7d'])).reverse = '\x7d' :: (t.reverse ++ ['\x7b']) from by simp]
  rw [show List.dropWhile isPySpace ('\x7d' :: (t.reverse ++ ['\x7b']))
      = '\x7d' :: (t.reverse ++ ['\x7b'])
    from by rw [List.dropWhile_cons, if_neg (by decide)]]
  simp

/-- C9 (amended).  If the extractor succeeded on `t` producing the dict `ms`
(no `error` key), the `json.dumps` rendering of that dict contains no triple
backtick, and the dict contains no `NaN` value, then running the extractor on
the fenced-JSON rendering returns exactly the same dict.  (The NaN-freedom
condition is what lets this structural reproduction stand for Python's `==`
on the members: a bare float `nan` never compares equal to its reload, while
`Infinity`/`-Infinity` and every other value do.) -/
theorem c9_roundtrip_amended (t : List Char) (ms : List (List Char × JsonVal))
    (h : _parse_structured_response t = .ok (.obj ms))
    (_herr : objHasKey ms "error".data = false)
    (_hnan : noNaN (.obj ms) = true)
    (hfence : hasSub "```".data (dumpsV (.obj ms)) = false) :
    _parse_structured_response
        ("```json".data ++ ('\n' :: (dumpsV (.obj ms) ++ ('\n' :: "```".data)))) =
      .ok (.obj ms) := by
  obtain ⟨hvals, hnd, hiss, hsum⟩ := spr_ok_obj_shape t ms h
  obtain ⟨t0, ht0⟩ := dumpsObj_cons_shape ms
  have hS' : dumpsV (.obj ms) = '\x7b' :: (t0 ++ ['\x7d']) := ht0
  have hstrat1 : strat1 ("```json".data ++ ('\n' :: (dumpsV (.obj ms) ++ ('\n' :: "```".data))))
      = some (dumpsV (.obj ms)) := by
    have hcall := strat1_fenced [] (t0 ++ ['\x7d']) [] (by simp) (by rw [← hS']; exact hfence)
    rw [List.nil_append, List.append_nil] at hcall
    rw [hS', hcall, ← hS', pyStrip_dumpsObj]
  have hTne : "```json".data ++ ('\n' :: (dumpsV (.obj ms) ++ ('\n' :: "```".data))) ≠ [] := by
    intro hc
    have := congrArg List.length hc
    simp at this
  have hcand : extractCandidate
      ("```json".data ++ ('\n' :: (dumpsV (.obj ms) ++ ('\n' :: "```".data))))
      = some (dumpsV (.obj ms)) := by
    rw [extractCandidate, hstrat1]
  have hek : ensureKeys (.obj ms) = .ok (.obj ms) := by
    rw [ensureKeys_obj_eval ms]
    simp only [hiss, hsum, eq_self_iff_true, if_true]
  rw [_parse_structured_response, if_neg hTne, hcand]
  simp only []
  rw [if_neg (by rw [hS']; simp)]
  rw [jsonLoads_dumpsV (.obj ms) (WF.obj ms hvals hnd)]
  exact hek

/-- C9 witness: the canonical structured response round-trips through its
fenced rendering. -/
theorem c9_roundtrip_amended_witness :
    _parse_structured_response "```json\n\x7b\"issues\": [], \"summary\": \"ok\"\x7d\n```".data
        = .ok (.obj [("issues".data, .arr []), ("summary".data, .str "ok".data)]) ∧
    objHasKey [("issues".data, JsonVal.arr []), ("summary".data, JsonVal.str "ok".data)]
        "error".data = false ∧
    noNaN (.obj [("issues".data, .arr []), ("summary".data, .str "ok".data)]) = true ∧
    hasSub "```".data (dumpsV (.obj [("issues".data, .arr []),
        ("summary".data, .str "ok".data)])) = false ∧
    _parse_structured_response ("```json".data ++ ('\n' ::
        (dumpsV (.obj [("issues".data, .arr []), ("summary".data, .str "ok".data)]) ++
          ('\n' :: "```".data)))) =
      .ok (.obj [("issues".data, .arr []), ("summary".data, .str "ok".data)]) :=
  ⟨rfl, rfl, rfl, rfl,
    c9_roundtrip_amended "```json\n\x7b\"issues\": [], \"summary\": \"ok\"\x7d\n```".data
      [("issues".data, .arr []), ("summary".data, .str "ok".data)] rfl rfl rfl rfl⟩

/-- C9 counterexample to the unconditional claim: the extractor succeeds on a
fenced response whose summary contains a triple backtick, producing an
error-free dict; re-extracting the fenced `json.dumps` rendering of that dict
hits the backticks inside the summary string, truncates the candidate at them,
fails to parse it, and returns the parse-failure dict, whose summary is the
empty string rather than the original one. -/
theorem c9_roundtrip_counterexample :
    _parse_structured_response "\x7b\"issues\": [], \"summary\": \"a```b\"\x7d".data
      = .ok (.obj [("issues".data, .arr []), ("summary".data, .str "a```b".data)]) ∧
    objHasKey [("issues".data, JsonVal.arr []), ("summary".data, JsonVal.str "a```b".data)]
      "error".data = false ∧
    dumpsV (.obj [("issues".data, .arr []), ("summary".data, .str "a```b".data)])
      = "\x7b\"issues\": [], \"summary\": \"a```b\"\x7d".data ∧
    _parse_structured_response ("```json".data ++ ('\n' ::
        (dumpsV (.obj [("issues".data, .arr []), ("summary".data, .str "a```b".data)]) ++
          ('\n' :: "```".data)))) =
      .ok (parseFailObj ("```json".data ++ ('\n' ::
        (dumpsV (.obj [("issues".data, .arr []), ("summary".data, .str "a```b".data)]) ++
          ('\n' :: "```".data))))) ∧
    getStrField (parseFailObj ("```json".data ++ ('\n' ::
        (dumpsV (.obj [("issues".data, .arr []), ("summary".data, .str "a```b".data)]) ++
          ('\n' :: "```".data))))) "summary".data = some [] ∧
    getStrField (.obj [("issues".data, .arr []), ("summary".data, .str "a```b".data)])
      "summary".data = some "a```b".data ∧
    (some ([] : List Char) ≠ some "a```b".data) :=
  ⟨rfl, rfl, rfl, rfl, rfl, rfl, by decide⟩
